import Mathlib

/-!
Shallow embedding of the `ingrid_core` TypeScript sources (crossword fill
engine): word list, dupe index, grid config, arc-consistency propagator and
backtracking search scaffolding, together with theorems settling the
specification claims.

Conventions used throughout:
* JavaScript numbers that only ever hold integers are modelled as `Int`
  (counts may go negative, as they can in JS) or `Nat` where the code keeps
  them non-negative by construction; fractional weights are modelled as `Rat`.
* A JavaScript `Map` with primitive keys (strings, numbers) compares keys by
  value; it is modelled as an association list with `jsMapSet` (update in
  place if the key is present, append otherwise) and `jsMapGet`.
* A JavaScript `Map` whose keys are *arrays* (the `GlobalWordId` tuples of
  `dupe-index.ts`) compares keys by object identity.  Such keys are modelled
  as allocation ids: every tuple object used as a key carries a `ref : Nat`
  drawn from a counter, and lookups compare refs, never values.
* A JavaScript `Set` is an insertion-ordered list without duplicates
  (`jsSetAdd`).
-/

namespace Ingrid

/-- JS `Map.get` for value-keyed maps: first (and only) binding of the key. -/
def jsMapGet {κ α : Type} [DecidableEq κ] (m : List (κ × α)) (k : κ) : Option α :=
  match m with
  | [] => none
  | (k', v) :: rest => if k = k' then some v else jsMapGet rest k

/-- JS `Map.set` for value-keyed maps: overwrite in place, else append. -/
def jsMapSet {κ α : Type} [DecidableEq κ] (m : List (κ × α)) (k : κ) (v : α) :
    List (κ × α) :=
  match m with
  | [] => [(k, v)]
  | (k', v') :: rest =>
      if k = k' then (k, v) :: rest else (k', v') :: jsMapSet rest k v

/-- JS `Set.add`: append if not already present (insertion order kept). -/
def jsSetAdd {α : Type} [DecidableEq α] (s : List α) (a : α) : List α :=
  if a ∈ s then s else s ++ [a]

/-- JS number division on the (always-rational) values this development
manipulates.  Definitionally equal to `Rat.div` on nonzero divisors (lemma
`jsDiv_eq_div` below); spelled out via `mkRat` because the core `Rat`
arithmetic is `@[irreducible]` and would block kernel evaluation. -/
def jsDiv (a b : Rat) : Rat :=
  if b.num < 0 then mkRat (-(a.num * (b.den : Int))) (a.den * b.num.natAbs)
  else mkRat (a.num * (b.den : Int)) (a.den * b.num.natAbs)

/-- JS `String.prototype.trim` on a character list. -/
def jsTrimChars (l : List Char) : List Char :=
  ((l.dropWhile Char.isWhitespace).reverse.dropWhile Char.isWhitespace).reverse

/-- JS `String.prototype.split(sep)` for a single-character separator:
splits at every occurrence, keeping empty fields (`"".split` gives one empty
field). -/
def splitChar (sep : Char) (l : List Char) : List (List Char) :=
  l.foldr
    (fun c acc =>
      if c = sep then [] :: acc
      else
        match acc with
        | [] => [[c]]
        | h :: t => (c :: h) :: t)
    [[]]

/-- JS `array[i] = v` on a list (in-range update; out-of-range writes keep the
list unchanged, a case the modelled code never exercises). -/
def listSet {α : Type} (l : List α) (i : Nat) (v : α) : List α :=
  l.set i v

/-- Update index `i` of a list by a function. -/
def listModify {α : Type} (l : List α) (i : Nat) (f : α → α) : List α :=
  match l.get? i with
  | none => l
  | some a => l.set i (f a)

/-! ## Word list (`word-list.ts`) -/

/-- `LETTER_POINTS` from word-list.ts: arbitrary letter point values; unknown
characters score 3 (`LETTER_POINTS.get(char) ?? 3`). -/
def letterPoints (c : Char) : Int :=
  if c = 'a' ∨ c = 'e' ∨ c = 'i' ∨ c = 'l' ∨ c = 'n' ∨ c = 'o' ∨ c = 'r' ∨
     c = 's' ∨ c = 't' ∨ c = 'u' then 1
  else if c = 'd' ∨ c = 'g' then 2
  else if c = 'b' ∨ c = 'c' ∨ c = 'm' ∨ c = 'p' then 3
  else if c = 'f' ∨ c = 'h' ∨ c = 'v' ∨ c = 'w' ∨ c = 'y' then 4
  else if c = 'k' then 5
  else if c = 'j' ∨ c = 'x' then 8
  else if c = 'q' ∨ c = 'z' then 10
  else 3

/-- A word in the list (class `Word`).  `sourceIndex`/`personalWordScore` are
omitted: the TS constructor is never called with them in this repository. -/
structure Word where
  normalizedString : String
  canonicalString : String
  glyphs : List Nat
  score : Int
  letterScore : Int
  hidden : Bool
  deriving Repr, DecidableEq

/-- Build a `Word` the way the TS constructor does, computing `letterScore`
from the normalized string. -/
def mkWord (normalized canonical : String) (glyphs : List Nat) (score : Int)
    (hidden : Bool) : Word :=
  { normalizedString := normalized
    canonicalString := canonical
    glyphs := glyphs
    score := score
    letterScore := (normalized.toList.map letterPoints).sum
    hidden := hidden }

/-- `normalizeWord`: lowercase and strip whitespace.  (The TS also applies
Unicode NFC normalization, which is the identity on every string appearing in
this development and is not modelled.) -/
def normalizeWord (canonical : String) : String :=
  String.mk ((canonical.toList.map Char.toLower).filter (fun c => ¬ c.isWhitespace))

/-! ### Dupe index (`dupe-index.ts`)

`GlobalWordId` tuples are used both as map keys (object identity!) and as
values that get destructured.  A tuple object is modelled as a `GWId`: its
allocation id `ref` plus its contents `val = (length, wordId)`.  All tuples
stored as keys were allocated inside `addWord`/`addDupePair`; a lookup with a
*fresh* tuple (as in `getDupes`, which builds `[slotId, wordId]` on the spot)
can therefore never hit. -/

structure GWId where
  ref : Nat
  val : Nat × Nat
  deriving Repr, DecidableEq

structure DupeIndex where
  windowSize : Nat
  /-- `groups`: arrays of `GlobalWordId` contents (only ever destructured). -/
  groups : List (List (Nat × Nat))
  /-- `extraDupesByWord`: keyed by tuple identity; entries keep both the
  stored tuple's identity (for `includes`/`indexOf`) and its contents. -/
  extraDupesByWord : List (Nat × List GWId)
  /-- `groupKeysByWord`: keyed by tuple identity. -/
  groupKeysByWord : List (Nat × List Nat)
  /-- `groupKeyBySubstring`: keyed by the string `substring.join(",")`,
  modelled by the glyph list itself (string keys compare by value). -/
  groupKeyBySubstring : List (List Nat × Nat)
  /-- Allocation counter for tuple objects used as map keys; every stored
  `ref` is below it. -/
  nextRef : Nat
  deriving Repr, DecidableEq

def DupeIndex.empty (windowSize : Nat) : DupeIndex :=
  { windowSize := windowSize, groups := [], extraDupesByWord := [],
    groupKeysByWord := [], groupKeyBySubstring := [], nextRef := 0 }

/-- The length-`w` windows `word.glyphs.slice(i, i+w)` for
`0 ≤ i ≤ glyphs.length - w` (none when `w > length`, matching the JS loop
bound `i <= word.glyphs.length - this.windowSize`). -/
def substringWindows (glyphs : List Nat) (w : Nat) : List (List Nat) :=
  if w ≤ glyphs.length then
    (List.range (glyphs.length - w + 1)).map (fun i => (glyphs.drop i).take w)
  else []

/-- One step of `DupeIndex.addWord`'s loop body for a single window key. -/
def addWindow (st : DupeIndex × List Nat) (gw : GWId) (key : List Nat) :
    DupeIndex × List Nat :=
  let d := st.1
  let groupKeys := st.2
  match jsMapGet d.groupKeyBySubstring key with
  | some k =>
      ({ d with groups := listModify d.groups k (fun g => g ++ [gw.val]) },
       groupKeys ++ [k])
  | none =>
      let k := d.groups.length
      ({ d with groups := d.groups ++ [[gw.val]],
                groupKeyBySubstring := jsMapSet d.groupKeyBySubstring key k },
       groupKeys ++ [k])

/-- `DupeIndex.addWord`: record every length-`windowSize` window of the word,
then file the collected group keys under the (freshly allocated) tuple. -/
def DupeIndex.addWord (d : DupeIndex) (wordId : Nat) (word : Word) : DupeIndex :=
  if d.windowSize = 0 then d
  else
    let gw : GWId := ⟨d.nextRef, (word.glyphs.length, wordId)⟩
    let st := (substringWindows word.glyphs d.windowSize).foldl
      (fun st key => addWindow st gw key) (d, [])
    { st.1 with
      groupKeysByWord := jsMapSet st.1.groupKeysByWord gw.ref st.2
      nextRef := d.nextRef + 1 }

/-- `DupeIndex.addDupePair`: symmetric append keyed by tuple identity;
`group.includes(toId)` compares object identity, so the duplicate check
compares refs. -/
def DupeIndex.addDupePair (d : DupeIndex) (g1 g2 : GWId) : DupeIndex :=
  let add (d : DupeIndex) (fromId toId : GWId) : DupeIndex :=
    let group := (jsMapGet d.extraDupesByWord fromId.ref).getD []
    let group' := if group.any (fun g => g.ref = toId.ref) then group
                  else group ++ [toId]
    { d with extraDupesByWord := jsMapSet d.extraDupesByWord fromId.ref group' }
  add (add d g1 g2) g2 g1

/-- `DupeIndex.removeDupePair`: symmetric removal, matching by tuple identity
(`indexOf`). -/
def DupeIndex.removeDupePair (d : DupeIndex) (g1 g2 : GWId) : DupeIndex :=
  let remove (d : DupeIndex) (fromId toId : GWId) : DupeIndex :=
    match jsMapGet d.extraDupesByWord fromId.ref with
    | none => d
    | some group =>
        let group' :=
          match group.findIdx? (fun g => g.ref = toId.ref) with
          | none => group
          | some i => group.take i ++ group.drop (i + 1)
        { d with extraDupesByWord := jsMapSet d.extraDupesByWord fromId.ref group' }
  remove (remove d g1 g2) g2 g1

/-- `addDupe` helper inside `getDupesByLength`: map length → Set, with JS
`Set.add` semantics. -/
def addDupe (m : List (Nat × List Nat)) (length wordId : Nat) : List (Nat × List Nat) :=
  let s := (jsMapGet m length).getD []
  jsMapSet m length (jsSetAdd s wordId)

/-- `DupeIndex.getDupesByLength`, taking the query tuple with its identity.
The two map lookups use the tuple's identity; the self-insertion uses its
contents. -/
def DupeIndex.getDupesByLength (d : DupeIndex) (g : GWId) : List (Nat × List Nat) :=
  let m : List (Nat × List Nat) := addDupe [] g.val.1 g.val.2
  let m :=
    match jsMapGet d.groupKeysByWord g.ref with
    | none => m
    | some groupKeys =>
        groupKeys.foldl
          (fun m k => ((d.groups.get? k).getD []).foldl
            (fun m lw => addDupe m lw.1 lw.2) m) m
  match jsMapGet d.extraDupesByWord g.ref with
  | none => m
  | some extras => extras.foldl (fun m e => addDupe m e.val.1 e.val.2) m

/-- `DupeIndex.getDupes(slotId, wordId)`: builds the tuple `[slotId, wordId]`
*fresh* (its ref is `nextRef`, never stored in any map) and re-buckets the
result of `getDupesByLength` — the copy is the identity on this
representation. -/
def DupeIndex.getDupes (d : DupeIndex) (slotId wordId : Nat) : List (Nat × List Nat) :=
  let g : GWId := ⟨d.nextRef, (slotId, wordId)⟩
  let dupesByLength := d.getDupesByLength g
  dupesByLength.foldl (fun m lw => lw.2.foldl (fun m w => addDupe m lw.1 w) m) []

/-! ### The word list proper -/

structure RawWordListEntry where
  length : Nat
  normalized : String
  canonical : String
  score : Int
  deriving Repr, DecidableEq

/-- A word-list source.  Only the in-memory variant is modelled: the `file`
variant performs I/O and `fileContents` differs from it only in where the
text comes from; no claim depends on them. -/
structure WordListSource where
  enabled : Bool
  words : List (String × Int)
  deriving Repr, DecidableEq

structure WordList where
  glyphs : List Char
  glyphIdByChar : List (Char × Nat)
  words : List (List Word)
  wordIdByString : List (String × Nat)
  dupeIndex : DupeIndex
  maxLength : Option Nat
  deriving Repr, DecidableEq

/-- `new WordList([])` with no optional arguments: `words` starts as `[[]]`
and the dupe index has window size 0 (`maxSharedSubstring ?? 0`). -/
def WordList.new : WordList :=
  { glyphs := [], glyphIdByChar := [], words := [[]], wordIdByString := [],
    dupeIndex := DupeIndex.empty 0, maxLength := none }

/-- One character of `getGlyphIds`: look the character up, interning it with
the next id on first sight, and append its id. -/
def internGlyph (st : WordList × List Nat) (c : Char) : WordList × List Nat :=
  match jsMapGet st.1.glyphIdByChar c with
  | some id => (st.1, st.2 ++ [id])
  | none =>
      let id := st.1.glyphs.length
      ({ st.1 with glyphs := st.1.glyphs ++ [c],
                   glyphIdByChar := jsMapSet st.1.glyphIdByChar c id },
       st.2 ++ [id])

/-- `getGlyphIds`: intern each character, assigning the next id on first
sight, and return the id sequence. -/
def getGlyphIds (wl : WordList) (word : String) : WordList × List Nat :=
  word.toList.foldl internGlyph (wl, [])

/-- Grow `words` with empty buckets until index `n` exists
(`while (this.words.length <= wordLength) this.words.push([])`). -/
def growBuckets (words : List (List Word)) (n : Nat) : List (List Word) :=
  if words.length ≤ n then words ++ List.replicate (n + 1 - words.length) []
  else words

/-- `addWordSilent`: intern glyphs, grow buckets, append the word, register
it in `wordIdByString`, add it to the dupe index; returns the
`GlobalWordId`. -/
def addWordSilent (wl : WordList) (rawEntry : RawWordListEntry)
    (hidden : Bool) : WordList × (Nat × Nat) :=
  let (wl, glyphs) := getGlyphIds wl rawEntry.normalized
  let wordLength := glyphs.length
  let words := growBuckets wl.words wordLength
  let wordId := ((words.get? wordLength).getD []).length
  let w := mkWord rawEntry.normalized rawEntry.canonical glyphs rawEntry.score hidden
  let words := listModify words wordLength (fun b => b ++ [w])
  let wl := { wl with
    words := words
    wordIdByString := jsMapSet wl.wordIdByString rawEntry.normalized wordId
    dupeIndex := wl.dupeIndex.addWord wordId w }
  (wl, (wordLength, wordId))

/-- `addHiddenWord` (the `onUpdate` callback is absent in every modelled
construction). -/
def addHiddenWord (wl : WordList) (normalizedWord : String) : WordList × (Nat × Nat) :=
  addWordSilent wl
    { length := normalizedWord.length, normalized := normalizedWord,
      canonical := normalizedWord, score := 0 } true

/-- `getWordIdOrAddHidden`: existing id if present, otherwise add hidden with
score 0. -/
def getWordIdOrAddHidden (wl : WordList) (normalizedWord : String) :
    WordList × (Nat × Nat) :=
  match jsMapGet wl.wordIdByString normalizedWord with
  | some existingWordId => (wl, (normalizedWord.length, existingWordId))
  | none => addHiddenWord wl normalizedWord

/-- `loadWordsFromSource` for a memory source: skip empty normalizations and
within-source duplicates (the local `index` map). -/
def loadWordsFromSource (source : WordListSource) : List RawWordListEntry :=
  (source.words.foldl
    (fun (st : List String × List RawWordListEntry) cs =>
      let (index, entries) := st
      let normalized := normalizeWord cs.1
      if normalized.length = 0 ∨ normalized ∈ index then st
      else (index ++ [normalized],
            entries ++ [{ length := normalized.length, normalized := normalized,
                          canonical := cs.1, score := cs.2 }]))
    ([], [])).2

/-- The max-length filter of `replaceList` (note the JS truthiness check
`if (maxLength && ...)`, so a `maxLength` of 0 disables the filter). -/
def entryLengthFiltered (maxLength : Option Nat) (entry : RawWordListEntry) : Bool :=
  match maxLength with
  | some m => decide (m ≠ 0) && decide (entry.length > m)
  | none => false

/-- The body of `replaceList` for one raw entry: max-length filter,
cross-source `seenWords` dedup, glyph interning, bucket growth, append, and
`wordIdByString` registration.  The dupe index is *not* touched (the TS
inlines the append instead of calling `addWordSilent`). -/
def replaceListStep (st : WordList × List String) (entry : RawWordListEntry) :
    WordList × List String :=
  let (wl, seenWords) := st
  if entryLengthFiltered wl.maxLength entry then st
  else if entry.normalized ∈ seenWords then st
  else
    let seenWords := seenWords ++ [entry.normalized]
    let (wl, glyphs) := getGlyphIds wl entry.normalized
    let wordLength := glyphs.length
    let words := growBuckets wl.words wordLength
    let wordId := ((words.get? wordLength).getD []).length
    let w := mkWord entry.normalized entry.canonical glyphs entry.score false
    let words := listModify words wordLength (fun b => b ++ [w])
    ({ wl with
        words := words
        wordIdByString := jsMapSet wl.wordIdByString entry.normalized wordId },
     seenWords)

/-- `WordList.replaceList(sources, personalListIndex?, maxLength?)`: iterate
the enabled sources in order, ingesting each source's entries.  Nothing is
cleared: the existing buckets, string index and glyph table are extended in
place. -/
def WordList.replaceList (wl : WordList) (sourceConfigs : List WordListSource)
    (maxLength : Option Nat) : WordList :=
  let wl := { wl with maxLength := maxLength }
  (sourceConfigs.foldl
    (fun (st : WordList × List String) source =>
      if source.enabled then
        (loadWordsFromSource source).foldl replaceListStep st
      else st)
    (wl, [])).1

/-- Claim-side (from the specification's words, for C4): the first-occurrence
dedup over a stream of entries — an entry is kept iff it passes the
max-length filter and its normalized string has not been seen before, and a
kept entry claims its normalized string. -/
def ingestDedup (maxLength : Option Nat) : List String → List RawWordListEntry →
    List RawWordListEntry
  | _, [] => []
  | seen, e :: rest =>
      if entryLengthFiltered maxLength e then ingestDedup maxLength seen rest
      else if e.normalized ∈ seen then ingestDedup maxLength seen rest
      else e :: ingestDedup maxLength (seen ++ [e.normalized]) rest

/-- Claim-side (for C4): the entries a `replaceList` call ingests — the
enabled sources' loaded entries in order, first occurrence of each
normalized string owning it. -/
def ingestedEntries (sources : List WordListSource) (maxLength : Option Nat) :
    List RawWordListEntry :=
  ingestDedup maxLength [] ((sources.filter (·.enabled)).flatMap loadWordsFromSource)

/-! ## Slot options (`grid-config.ts`, `generateSlotOptions`) -/

/-- `completeFill.map(g => wordList.glyphs[g]).join("")`; `join` renders an
out-of-range (`undefined`) element as the empty string. -/
def spellFill (wl : WordList) (completeFill : List Nat) : String :=
  String.join (completeFill.map (fun g =>
    match wl.glyphs.get? g with
    | some c => String.mk [c]
    | none => ""))

/-- The per-word loop body of `generateSlotOptions`, as the boolean "is this
word pushed". -/
def slotOptionKeep (entryFill : List (Option Nat)) (minScore : Int)
    (filterPattern : Option (String → Bool)) (allowedWordIds : Option (List Nat))
    (wordId : Nat) (word : Word) : Bool :=
  let enforceCriteria : Bool :=
    match allowedWordIds with
    | some a => decide (wordId ∉ a)
    | none => true
  if enforceCriteria && (word.hidden || decide (word.score < minScore)) then false
  else if enforceCriteria &&
      (match filterPattern with
       | some p => ! p word.normalizedString
       | none => false) then false
  else
    entryFill.enum.all (fun cf =>
      match cf.2 with
      | none => true
      | some g => decide (word.glyphs.get? cf.1 = some g))

/-- `generateSlotOptions`.  Returns the updated word list as well: the
fully-specified branch may add a hidden word.  The filter pattern is the
abstract boolean test `filterPattern.test` of the slot's `RegExp`. -/
def generateSlotOptions (wl : WordList) (entryFill : List (Option Nat))
    (minScore : Int) (filterPattern : Option (String → Bool))
    (allowedWordIds : Option (List Nat)) : WordList × List Nat :=
  if entryFill.all Option.isSome then
    let completeFill := entryFill.filterMap id
    let wordString := spellFill wl completeFill
    let (wl, gid) := getWordIdOrAddHidden wl wordString
    (wl, [gid.2])
  else
    match wl.words.get? entryFill.length with
    | none => (wl, [])
    | some bucket =>
        (wl, (bucket.enum.filter (fun iw =>
                slotOptionKeep entryFill minScore filterPattern allowedWordIds
                  iw.1 iw.2)).map Prod.fst)

/-- Claim-side characterization of `generateSlotOptions` (C1), written from
the specification's words: a complete pre-fill yields the single
lookup-or-add-hidden id; otherwise a word `w` of the length-`L` bucket is
kept, in bucket order, iff it agrees with every present pre-filled cell and
(`w ∈ A` or (`w` not hidden and `w.score ≥ S` and, when `R` is given, `R`
matches `w`'s normalized string)). -/
def slotOptionsSpec (wl : WordList) (entryFill : List (Option Nat))
    (minScore : Int) (filterPattern : Option (String → Bool))
    (allowedWordIds : Option (List Nat)) : List Nat :=
  if entryFill.all Option.isSome then
    [(getWordIdOrAddHidden wl (spellFill wl (entryFill.filterMap id))).2.2]
  else
    ((wl.words.getD entryFill.length []).enum.filter (fun iw =>
        (entryFill.enum.all (fun cf =>
          match cf.2 with
          | none => true
          | some g => decide (iw.2.glyphs.get? cf.1 = some g))) &&
        ((match allowedWordIds with
          | some a => decide (iw.1 ∈ a)
          | none => false) ||
         (! iw.2.hidden && decide (minScore ≤ iw.2.score) &&
          (match filterPattern with
           | some p => p iw.2.normalizedString
           | none => true))))).map Prod.fst


/-! ## Grid config (`grid-config.ts`) -/

inductive Direction where
  | across
  | down
  deriving Repr, DecidableEq

structure Crossing where
  otherSlotId : Nat
  otherSlotCell : Nat
  crossingId : Nat
  deriving Repr, DecidableEq

/-- `SlotConfig`.  `minScoreOverride` and `filterPattern` are omitted: no code
path in this repository ever sets them (the constructor is always called
without them), so they are always `undefined`. -/
structure SlotConfig where
  id : Nat
  startCell : Nat × Nat
  direction : Direction
  length : Nat
  crossings : List (Option Crossing)
  deriving Repr, DecidableEq

/-- `SlotConfig.cellCoords`. -/
def SlotConfig.cellCoords (sc : SlotConfig) : List (Nat × Nat) :=
  (List.range sc.length).map (fun i =>
    match sc.direction with
    | .across => (sc.startCell.1 + i, sc.startCell.2)
    | .down => (sc.startCell.1, sc.startCell.2 + i))

/-- `SlotConfig.cellFillIndices`. -/
def SlotConfig.cellFillIndices (sc : SlotConfig) (gridWidth : Nat) : List Nat :=
  sc.cellCoords.map (fun loc => loc.1 + loc.2 * gridWidth)

/-- `SlotConfig.getFill` (an out-of-range read yields `undefined`, i.e.
an empty cell). -/
def SlotConfig.getFill (sc : SlotConfig) (fill : List (Option Nat))
    (gridWidth : Nat) : List (Option Nat) :=
  (sc.cellFillIndices gridWidth).map (fun idx => (fill.get? idx).getD none)

structure GridConfig where
  wordList : WordList
  fill : List (Option Nat)
  slotConfigs : List SlotConfig
  slotOptions : List (List Nat)
  width : Nat
  height : Nat
  crossingCount : Nat
  deriving Repr, DecidableEq

/-- One row of `buildWords` inside `generateSlotsFromTemplateString`: scan a
(padded) row, breaking runs at `#` and keeping runs longer than one cell.
`currentWordCoords` starts empty on each row. -/
def buildWordsRow (y : Nat) (row : List Char)
    (result : List (List (Nat × Nat))) : List (List (Nat × Nat)) :=
  (row.enum.foldl
    (fun (st : List (List (Nat × Nat)) × List (Nat × Nat)) xc =>
      if xc.2 = '#' then
        (if st.2.length > 1 then (st.1 ++ [st.2], []) else (st.1, []))
      else (st.1, st.2 ++ [(xc.1, y)]))
    (result, [])).1

/-- `buildWords`: pad each row with `#` and append an all-`#` row, then
collect maximal runs of length > 1 from each row. -/
def buildWords (grid : List (List Char)) : List (List (Nat × Nat)) :=
  let padded := grid.map (fun row => row ++ ['#'])
  let padded := padded ++ [List.replicate (padded.headD []).length '#']
  (padded.enum.foldl (fun result yr => buildWordsRow yr.1 yr.2 result) [])

structure SlotSpec where
  startCell : Nat × Nat
  direction : Direction
  length : Nat
  deriving Repr, DecidableEq

/-- `generateSlotsFromTemplateString`: across slots from the rows, down slots
from the transposed grid.  An out-of-range read in the transposition (ragged
template) yields `undefined` in JS, which only ever gets compared against
`'#'`; it is modelled by the placeholder `'.'`. -/
def generateSlotsFromTemplateString (template : String) : List SlotSpec :=
  let lines := splitChar '\n' (jsTrimChars template.toList)
  let height := lines.length
  let width := (lines.headD []).length
  let acrossSpecs := (buildWords lines).map (fun coords =>
    { startCell := coords.headD (0, 0), length := coords.length,
      direction := Direction.across : SlotSpec })
  let transposed := (List.range width).map (fun x =>
    (List.range height).map (fun y => ((lines.getD y []).getD x '.')))
  let downSpecs := (buildWords transposed).map (fun coords =>
    let retransposed := coords.map (fun yx => (yx.2, yx.1))
    { startCell := retransposed.headD (0, 0), length := retransposed.length,
      direction := Direction.down : SlotSpec })
  acrossSpecs ++ downSpecs

/-- Cell coordinates of a `SlotSpec`, as computed (twice) inside
`generateSlotConfigs`. -/
def SlotSpec.coords (entry : SlotSpec) : List (Nat × Nat) :=
  (List.range entry.length).map (fun i =>
    match entry.direction with
    | .across => (entry.startCell.1 + i, entry.startCell.2)
    | .down => (entry.startCell.1, entry.startCell.2 + i))

/-- An entry of the `cellByLoc` table: a coordinate plus the
(entryIndex, cellIndex) pairs that touch it. -/
structure CellByLoc where
  coord : Nat × Nat
  entries : List (Nat × Nat)
  deriving Repr, DecidableEq

/-- First pass of `generateSlotConfigs`: build `cellByLoc` (find the cell by
coordinate value, creating it at the end on first sight). -/
def buildCellByLoc (entries : List SlotSpec) : List CellByLoc :=
  (entries.enum.foldl
    (fun acc ie =>
      (ie.2.coords.enum.foldl
        (fun (acc : List CellByLoc) cl =>
          match acc.findIdx? (fun c => c.coord = cl.2) with
          | some i => listModify acc i
              (fun c => { c with entries := c.entries ++ [(ie.1, cl.1)] })
          | none => acc ++ [{ coord := cl.2, entries := [(ie.1, cl.1)] }])
        acc))
    [])

/-- The `cellByLoc.sort` comparator orders by row then column.  (The sorted
order is only ever consumed through coordinate-keyed `find` calls on distinct
coordinates, so the sort cannot affect any output; it is modelled by a stable
insertion sort.) -/
def sortCellByLoc (cells : List CellByLoc) : List CellByLoc :=
  cells.foldl
    (fun acc c =>
      match acc.findIdx? (fun c' =>
        c.coord.2 < c'.coord.2 ∨ (c.coord.2 = c'.coord.2 ∧ c.coord.1 < c'.coord.1)) with
      | some i => acc.take i ++ [c] ++ acc.drop i
      | none => acc ++ [c]) []

/-- Second pass of `generateSlotConfigs` for one entry: compute its crossing
list, threading the `(id1,id2) → crossingId` cache and the crossing
counter. -/
def entryCrossings (cellByLoc : List CellByLoc) (entryIndex : Nat)
    (entry : SlotSpec) (st : List ((Nat × Nat) × Nat) × Nat) :
    List (Option Crossing) × (List ((Nat × Nat) × Nat) × Nat) :=
  entry.coords.foldl
    (fun (acc : List (Option Crossing) × (List ((Nat × Nat) × Nat) × Nat)) loc =>
      let cache := acc.2.1
      let count := acc.2.2
      match cellByLoc.find? (fun c => c.coord = loc) with
      | none => (acc.1 ++ [none], (cache, count))
      | some cell =>
          match (cell.entries.filter (fun e => e.1 ≠ entryIndex)).head? with
          | none => (acc.1 ++ [none], (cache, count))
          | some otherEntry =>
              let otherSlotId := otherEntry.1
              let otherSlotCell := otherEntry.2
              let cacheKey := (min entryIndex otherSlotId, max entryIndex otherSlotId)
              match jsMapGet cache cacheKey with
              | some crossingId =>
                  (acc.1 ++ [some ⟨otherSlotId, otherSlotCell, crossingId⟩],
                   (cache, count))
              | none =>
                  (acc.1 ++ [some ⟨otherSlotId, otherSlotCell, count⟩],
                   (jsMapSet cache cacheKey count, count + 1)))
    ([], st)

/-- `generateSlotConfigs`. -/
def generateSlotConfigs (entries : List SlotSpec) :
    List SlotConfig × Nat :=
  let cellByLoc := sortCellByLoc (buildCellByLoc entries)
  let res := entries.enum.foldl
    (fun (acc : List SlotConfig × (List ((Nat × Nat) × Nat) × Nat)) ie =>
      let (crossings, st) := entryCrossings cellByLoc ie.1 ie.2 acc.2
      (acc.1 ++ [{ id := ie.1, startCell := ie.2.startCell,
                   direction := ie.2.direction, length := ie.2.length,
                   crossings := crossings }], st))
    ([], ([], 0))
  (res.1, res.2.2)

/-- `generateGridConfigFromTemplateString`.  The word list is threaded
through the per-slot `generateSlotOptions` calls, which may add hidden words
for fully pre-filled slots. -/
def generateGridConfigFromTemplateString (wl : WordList) (template : String)
    (minScore : Int) : GridConfig :=
  let lines := (splitChar '\n' (jsTrimChars template.toList)).map jsTrimChars
  let height := lines.length
  let width := (lines.headD []).length
  let fill : List (Option Nat) :=
    lines.flatten.map (fun c =>
      if c = '.' ∨ c = '#' then none
      else jsMapGet wl.glyphIdByChar c.toLower)
  let slotSpecs := generateSlotsFromTemplateString template
  let (slotConfigs, crossingCount) := generateSlotConfigs slotSpecs
  let res := slotConfigs.foldl
    (fun (acc : WordList × List (List Nat)) slot =>
      let entryFill := slot.getFill fill width
      let (wl, options) := generateSlotOptions acc.1 entryFill minScore none none
      (wl, acc.2 ++ [options]))
    (wl, [])
  { wordList := res.1, fill := fill, slotConfigs := slotConfigs,
    slotOptions := res.2, width := width, height := height,
    crossingCount := crossingCount }

structure Choice where
  slotId : Nat
  wordId : Nat
  deriving Repr, DecidableEq

/-- `renderGrid`: overlay the chosen words onto the fill and print row by
row; `undefined` cells (empty *or blocked* — `GridConfig.fill` stores `none`
for both) render as `'.'`.  A choice naming a missing slot or word would
throw in JS and is skipped here (unreachable in modelled runs). -/
def renderGrid (config : GridConfig) (choices : List Choice) : String :=
  let grid : List (Option Char) :=
    config.fill.map (fun g => g.bind (fun id => config.wordList.glyphs.get? id))
  let grid := choices.foldl
    (fun grid choice =>
      match config.slotConfigs.get? choice.slotId with
      | none => grid
      | some slotConfig =>
          match ((config.wordList.words.getD slotConfig.length []).get? choice.wordId) with
          | none => grid
          | some word =>
              word.glyphs.enum.foldl
                (fun (grid : List (Option Char)) cg =>
                  let xy :=
                    match slotConfig.direction with
                    | .across => (slotConfig.startCell.1 + cg.1, slotConfig.startCell.2)
                    | .down => (slotConfig.startCell.1, slotConfig.startCell.2 + cg.1)
                  listSet grid (xy.2 * config.width + xy.1)
                    (config.wordList.glyphs.get? cg.2))
                grid)
    grid
  String.mk (List.intercalate ['\n']
    ((List.range config.height).map (fun y =>
      (List.range config.width).map (fun x =>
        ((grid.get? (y * config.width + x)).getD none).getD '.'))))

/-! ## Live slot state (`backtracking-search.ts`, class `Slot`) -/

/-- `buildGlyphCountsByCell` (util.ts): per cell, per glyph id, the number of
options whose glyph at that cell matches. -/
def buildGlyphCountsByCell (wl : WordList) (slotLength : Nat)
    (options : List Nat) : List (List Int) :=
  options.foldl
    (fun counts wordId =>
      match (wl.words.getD slotLength []).get? wordId with
      | none => counts
      | some word =>
          word.glyphs.enum.foldl
            (fun (counts : List (List Int)) cg =>
              listModify counts cg.1 (fun row => listModify row cg.2 (· + 1)))
            counts)
    (List.replicate slotLength (List.replicate wl.glyphs.length (0 : Int)))

/-- Live state of one slot during filling (class `Slot`).  An elimination
entry is `none` (not eliminated / `undefined`), `some none` (eliminated with
blame `null`) or `some (some s)` (eliminated, blamed on slot `s`). -/
structure Slot where
  id : Nat
  length : Nat
  eliminations : List (Option (Option Nat))
  glyphCountsByCell : List (List Int)
  remainingOptionCount : Int
  fixedWordId : Option Nat
  fixedGlyphCountsByCell : Option (List (List Int))
  deriving Repr, DecidableEq

/-- `Slot.addElimination`: record the blame, decrement the live count, and
decrement the live glyph counts along the word.  (A word id missing from the
bucket would throw in JS; modelled as leaving the counts unchanged.) -/
def Slot.addElimination (s : Slot) (config : GridConfig) (wordId : Nat)
    (blamedSlotId : Option Nat) : Slot :=
  let s := { s with
    eliminations := listSet s.eliminations wordId (some blamedSlotId)
    remainingOptionCount := s.remainingOptionCount - 1 }
  match (config.wordList.words.getD s.length []).get? wordId with
  | none => s
  | some word =>
      { s with glyphCountsByCell :=
          (word.glyphs.enum.foldl
            (fun (counts : List (List Int)) cg =>
              listModify counts cg.1 (fun row => listModify row cg.2 (· - 1)))
            s.glyphCountsByCell) }

/-- `Slot.removeElimination`: the reverse bookkeeping (the elimination entry
becomes `undefined` again, regardless of its previous value). -/
def Slot.removeElimination (s : Slot) (config : GridConfig) (wordId : Nat) : Slot :=
  let s := { s with
    eliminations := listSet s.eliminations wordId none
    remainingOptionCount := s.remainingOptionCount + 1 }
  match (config.wordList.words.getD s.length []).get? wordId with
  | none => s
  | some word =>
      { s with glyphCountsByCell :=
          (word.glyphs.enum.foldl
            (fun (counts : List (List Int)) cg =>
              listModify counts cg.1 (fun row => listModify row cg.2 (· + 1)))
            s.glyphCountsByCell) }

/-- `Slot.chooseWord`. -/
def Slot.chooseWord (s : Slot) (config : GridConfig) (wordId : Nat) : Slot :=
  { s with fixedWordId := some wordId,
           fixedGlyphCountsByCell :=
             some (buildGlyphCountsByCell config.wordList s.length [wordId]) }

/-- `Slot.clearChoice`. -/
def Slot.clearChoice (s : Slot) : Slot :=
  { s with fixedWordId := none, fixedGlyphCountsByCell := none }

/-- The slot initialization at the top of `findFill`. -/
def initSlots (config : GridConfig) : List Slot :=
  config.slotConfigs.map (fun slotConfig =>
    { id := slotConfig.id
      length := slotConfig.length
      eliminations :=
        (List.replicate (config.wordList.words.getD slotConfig.length []).length none)
      glyphCountsByCell :=
        (buildGlyphCountsByCell config.wordList slotConfig.length
          (config.slotOptions.getD slotConfig.id []))
      remainingOptionCount := (config.slotOptions.getD slotConfig.id []).length
      fixedWordId := none
      fixedGlyphCountsByCell := none })

/-- `Array(config.crossingCount).fill(1.0)` in `findFill`. -/
def initialCrossingWeights (config : GridConfig) : List Rat :=
  List.replicate config.crossingCount 1

/-! ## Arc consistency (`arc-consistency.ts`)

The `ArcConsistencyAdapter` built in `backtracking-search.ts` returns the
*live* structures themselves: `getGlyphCounts(slotId)` is
`slots[slotId].glyphCountsByCell`, an alias, not a clone.  The propagator's
per-slot `glyphCountsByCell` field is therefore (once set) the very same
array as the live slot's, and every read or write of it lands on the live
state; the field itself carries no further information and is dropped from
the model, whose propagator reads and writes `Slot.glyphCountsByCell`
directly.  `isWordEliminated` reads the live elimination entries and
`getSingleOption` scans `config.slotOptions[slotId]` for the first word not
in the propagator's elimination set. -/

/-- `EliminationSet` (dense flags plus insertion-ordered id list). -/
structure EliminationSet where
  eliminationsById : List Bool
  eliminatedIds : List Nat
  deriving Repr, DecidableEq

def EliminationSet.contains (e : EliminationSet) (id : Nat) : Bool :=
  e.eliminationsById.getD id false

def EliminationSet.addElimination (e : EliminationSet) (id : Nat) : EliminationSet :=
  if e.contains id then e
  else { eliminationsById := listSet e.eliminationsById id true
         eliminatedIds := e.eliminatedIds ++ [id] }

/-- Per-slot propagator state (the `slotStates` records).  The elimination
sets are freshly reset at the top of every `establishArcConsistency` call, so
they are modelled as starting all-false. -/
structure PropSlot where
  slotId : Nat
  elims : EliminationSet
  blameCounts : List Int
  optionCount : Int
  queuedCellIdxs : Option (List Nat)
  needsSingletonPropagation : Bool
  deriving Repr, DecidableEq

structure ACFailure where
  weightUpdates : List (Nat × Rat)
  deriving Repr, DecidableEq

/-- The full mutable state of one `establishArcConsistency` call: the live
slots (mutated through the adapter aliases) and the per-slot propagator
records. -/
structure ACState where
  slots : List Slot
  propSlots : List PropSlot
  deriving Repr, DecidableEq

/-- The read-only inputs of one `establishArcConsistency` call. -/
structure ACContext where
  config : GridConfig
  initialOptionCounts : List Int
  crossingWeights : List Rat
  slotWeights : List Rat
  fixedSlots : List Bool

/-- `adapter.isWordEliminated`: is the word eliminated in the *live* state? -/
def liveEliminated (st : ACState) (slotId wordId : Nat) : Bool :=
  match st.slots.get? slotId with
  | none => false
  | some s => ((s.eliminations.get? wordId).getD none).isSome

/-- One crossing of the wipeout weight-updates map: a crossing with a
non-null peer contributes `blameCounts[cellIdx] / initialOptionCount` keyed
by its crossing id (`Map.set` semantics). -/
def fwuStep (blameCounts : List Int) (initialOptionCount : Int)
    (m : List (Nat × Rat)) (ccr : Nat × Option Crossing) : List (Nat × Rat) :=
  match ccr.2 with
  | none => m
  | some cr =>
      jsMapSet m cr.crossingId
        (jsDiv ((blameCounts.getD ccr.1 0 : Int) : Rat)
          ((initialOptionCount : Int) : Rat))

/-- The weight-updates map built on a wipeout. -/
def failureWeightUpdates (sc : SlotConfig) (blameCounts : List Int)
    (initialOptionCount : Int) : List (Nat × Rat) :=
  sc.crossings.enum.foldl (fwuStep blameCounts initialOptionCount) []

/-- The queue re-check after a glyph count reaches zero: enqueue the cell of
the slot if it has a crossing whose peer is not fixed and it is not queued
yet (initializing the queue array on demand). -/
def enqueueCell (ps : PropSlot) (cellIndex : Nat) : PropSlot :=
  let queued := ps.queuedCellIdxs.getD []
  if cellIndex ∈ queued then { ps with queuedCellIdxs := some queued }
  else { ps with queuedCellIdxs := some (queued ++ [cellIndex]) }

/-- `eliminateWord` (the inner closure of `establishArcConsistency`): add the
word to the slot's elimination set, decrement its option count, bump the
blame counter, fail on wipeout, flag singletons, and decrement the (live,
aliased) glyph counts along the word, re-enqueueing cells whose support just
vanished. -/
def eliminateWord (ctx : ACContext) (st : ACState) (slotId wordId : Nat)
    (blamedCellIdx : Option Nat) : ACState × Option ACFailure :=
  match ctx.config.slotConfigs.get? slotId, st.propSlots.get? slotId with
  | some slotConfig, some ps =>
      let ps := { ps with
        elims := ps.elims.addElimination wordId
        optionCount := ps.optionCount - 1 }
      let ps :=
        match blamedCellIdx with
        | some c => { ps with blameCounts := listModify ps.blameCounts c (· + 1) }
        | none => ps
      if ps.optionCount = 0 then
        ({ st with propSlots := listSet st.propSlots slotId ps },
         some ⟨failureWeightUpdates slotConfig ps.blameCounts
                (ctx.initialOptionCounts.getD slotId 0)⟩)
      else
        let ps :=
          if ps.optionCount = 1 then { ps with needsSingletonPropagation := true }
          else ps
        match (ctx.config.wordList.words.getD slotConfig.length []).get? wordId with
        | none =>
            ({ st with propSlots := listSet st.propSlots slotId ps }, none)
        | some word =>
            let res := word.glyphs.enum.foldl
              (fun (acc : List (List Int) × PropSlot) cg =>
                let counts := listModify acc.1 cg.1
                  (fun row => listModify row cg.2 (· - 1))
                if blamedCellIdx = some cg.1 then (counts, acc.2)
                else if (counts.getD cg.1 []).getD cg.2 1 = 0 then
                  match slotConfig.crossings.getD cg.1 none with
                  | some cr =>
                      if ¬ (ctx.fixedSlots.getD cr.otherSlotId false) then
                        (counts, enqueueCell acc.2 cg.1)
                      else (counts, acc.2)
                  | none => (counts, acc.2)
                else (counts, acc.2))
              ((st.slots.get? slotId).map Slot.glyphCountsByCell |>.getD [], ps)
            let st := { st with
              slots := (listModify st.slots slotId
                (fun s => { s with glyphCountsByCell := res.1 }))
              propSlots := listSet st.propSlots slotId res.2 }
            (st, none)
  | _, _ => (st, none)

/-- Early-exit fold: apply `f` until it reports a failure. -/
def foldE {σ α : Type} (f : σ → α → σ × Option ACFailure) (s : σ) :
    List α → σ × Option ACFailure
  | [] => (s, none)
  | a :: rest =>
      match f s a with
      | (s', none) => foldE f s' rest
      | (s', some e) => (s', some e)

/-- Step 1 of the main loop: among slots with a queued-cell array, pick the
first one minimizing `optionCount / slotWeight` (strict improvement, so the
earliest minimum wins; `minPriority` starts at `Infinity`, so the first
queued slot always becomes the candidate). -/
def pickQueuedSlot (ctx : ACContext) (st : ACState) : Option Nat :=
  (st.propSlots.enum.foldl
    (fun (best : Option (Nat × Rat)) ips =>
      if ips.2.queuedCellIdxs.isSome then
        let priority := jsDiv ((ips.2.optionCount : Int) : Rat) (ctx.slotWeights.getD ips.1 0)
        match best with
        | none => some (ips.1, priority)
        | some b => if priority < b.2 then some (ips.1, priority) else best
      else best)
    none).map Prod.fst

/-- Step 2: order the queued cells by descending current crossing weight
(stable insertion sort, matching the stable JS `Array.prototype.sort`). -/
def sortCellsByWeight (ctx : ACContext) (sc : SlotConfig) (cells : List Nat) :
    List Nat :=
  let key : Nat → Rat := fun cellIdx =>
    match sc.crossings.getD cellIdx none with
    | some cr => ctx.crossingWeights.getD cr.crossingId 0
    | none => 0
  cells.foldl
    (fun acc c =>
      match acc.findIdx? (fun c' => key c > key c') with
      | some i => acc.take i ++ [c] ++ acc.drop i
      | none => acc ++ [c]) []

/-- Step 3 for one queued cell of slot `queuedSlotId`: eliminate from the
crossing slot every live word whose glyph at the shared cell has no support
in the queued slot's (live) glyph counts. -/
def processCell (ctx : ACContext) (queuedSlotId : Nat) (st : ACState)
    (cellIdx : Nat) : ACState × Option ACFailure :=
  match ctx.config.slotConfigs.get? queuedSlotId with
  | none => (st, none)
  | some slotConfig =>
      match slotConfig.crossings.getD cellIdx none with
      | none => (st, none)
      | some crossing =>
          let otherSlotId := crossing.otherSlotId
          let otherLength :=
            match ctx.config.slotConfigs.get? otherSlotId with
            | some osc => osc.length
            | none => 0
          foldE
            (fun st wordId =>
              if liveEliminated st otherSlotId wordId ||
                 (match st.propSlots.get? otherSlotId with
                  | some ops => ops.elims.contains wordId
                  | none => false) then (st, none)
              else
                match (ctx.config.wordList.words.getD otherLength []).get? wordId with
                | none => (st, none)
                | some word =>
                    match word.glyphs.get? crossing.otherSlotCell with
                    | none => (st, none)
                    | some glyph =>
                        let support :=
                          match st.slots.get? queuedSlotId with
                          | some s => ((s.glyphCountsByCell.getD cellIdx []).get? glyph)
                          | none => none
                        if support = some 0 then
                          eliminateWord ctx st otherSlotId wordId
                            (some crossing.otherSlotCell)
                        else (st, none))
            st (ctx.config.slotOptions.getD otherSlotId [])

/-- Step 5 for one singleton slot: find its sole surviving option, look its
dupes up (`getDupes(slotId, wordId)` — note the *slot id* is passed where the
tuple's length component belongs), and eliminate every reported dupe, with
the report's length keys used as slot ids (`fixedSlots[otherSlotId]`); the
eliminations carry no blamed cell.  A key with no corresponding slot record
would throw in JS and is skipped here (unreachable: the only key the
reference-semantics lookups can produce is `slotId` itself). -/
def processSingleton (ctx : ACContext) (st : ACState) (slotId : Nat) :
    ACState × Option ACFailure :=
  let wordId? :=
    (ctx.config.slotOptions.getD slotId []).find? (fun wordId =>
      match st.propSlots.get? slotId with
      | some ps => ¬ ps.elims.contains wordId
      | none => false)
  match wordId? with
  | none => (st, none)
  | some wordId =>
      let dupes := ctx.config.wordList.dupeIndex.getDupes slotId wordId
      foldE
        (fun st lengthAndIds =>
          let otherSlotId := lengthAndIds.1
          if ctx.fixedSlots.getD otherSlotId false then (st, none)
          else if otherSlotId ≥ st.propSlots.length then (st, none)
          else
            foldE
              (fun st dupeWordId =>
                if ! liveEliminated st otherSlotId dupeWordId &&
                   ! (match st.propSlots.get? otherSlotId with
                      | some ops => ops.elims.contains dupeWordId
                      | none => true) then
                  eliminateWord ctx st otherSlotId dupeWordId none
                else (st, none))
              st lengthAndIds.2)
        st dupes

/-- One iteration body of the main `while` loop, after a queued slot has been
picked: consume its queue (most-contentious crossings first), then run
singleton propagation for every flagged slot. -/
def processQueuedSlot (ctx : ACContext) (st : ACState) (queuedSlotId : Nat) :
    ACState × Option ACFailure :=
  match st.propSlots.get? queuedSlotId with
  | none => (st, none)
  | some ps =>
      let cellIdxs := ps.queuedCellIdxs.getD []
      let st := { st with
        propSlots := (listSet st.propSlots queuedSlotId
          { ps with queuedCellIdxs := none }) }
      let sorted :=
        match ctx.config.slotConfigs.get? queuedSlotId with
        | some sc => sortCellsByWeight ctx sc cellIdxs
        | none => cellIdxs
      match foldE (processCell ctx queuedSlotId) st sorted with
      | (st, some e) => (st, some e)
      | (st, none) =>
          let singletonSlots :=
            (st.propSlots.filter (·.needsSingletonPropagation)).map (·.slotId)
          let st := { st with
            propSlots := (st.propSlots.map
              (fun ps => { ps with needsSingletonPropagation := false })) }
          foldE (processSingleton ctx) st singletonSlots

/-- The main loop, with fuel (the JS loop terminates since every iteration
either eliminates a word or empties a queue; running out of fuel just stops,
which no theorem relies on).  The loop breaks at the top when no slot has a
queued-cell array, and after an iteration when additionally no singleton
flag is pending. -/
def acLoop (ctx : ACContext) : Nat → ACState → ACState × Option ACFailure
  | 0, st => (st, none)
  | fuel + 1, st =>
      match pickQueuedSlot ctx st with
      | none => (st, none)
      | some queuedSlotId =>
          match processQueuedSlot ctx st queuedSlotId with
          | (st, some e) => (st, some e)
          | (st, none) =>
              if st.propSlots.all (fun s =>
                  ¬ s.queuedCellIdxs.isSome ∧ ¬ s.needsSingletonPropagation) then
                (st, none)
              else acLoop ctx fuel st

/-- The seeded slot ids: every slot on `Initial`, only the evaluated slot on
`Choice`/`Elimination`. -/
def seedIds (ctx : ACContext) (evaluatingSlot : Option Nat) : List Nat :=
  match evaluatingSlot with
  | none => ctx.config.slotConfigs.map (·.id)
  | some s => [s]

/-- Seeding: any seeded slot with option count 0 fails immediately with an
empty weight-updates map; otherwise its queue is set to the cells with a
non-fixed crossing peer, and an option count of 1 flags singleton
propagation.  (A seeded id with no slot record would throw in JS; skipped
here.) -/
def seedOneSlot (ctx : ACContext) (st : ACState) (slotId : Nat) :
    ACState × Option ACFailure :=
  match st.propSlots.get? slotId, ctx.config.slotConfigs.get? slotId with
  | some ps, some slotConfig =>
      if ps.optionCount = 0 then (st, some ⟨[]⟩)
      else
        let queued := slotConfig.crossings.enum.filterMap (fun icr =>
          match icr.2 with
          | some cr =>
              if ¬ (ctx.fixedSlots.getD cr.otherSlotId false) then some icr.1
              else none
          | none => none)
        let ps := { ps with queuedCellIdxs := some queued }
        let ps :=
          if ps.optionCount = 1 then { ps with needsSingletonPropagation := true }
          else ps
        ({ st with propSlots := listSet st.propSlots slotId ps }, none)
  | _, _ => (st, none)

def seedSlots (ctx : ACContext) (st : ACState) (evaluatingSlot : Option Nat) :
    ACState × Option ACFailure :=
  foldE (seedOneSlot ctx) st (seedIds ctx evaluatingSlot)

/-- The initial per-slot propagator records (elimination sets reset, blame
counters zeroed, option counts taken from the argument array). -/
def initPropSlots (ctx : ACContext) : List PropSlot :=
  ctx.config.slotConfigs.map (fun slotConfig =>
    { slotId := slotConfig.id
      elims :=
        { eliminationsById :=
            (List.replicate
              (ctx.config.wordList.words.getD slotConfig.length []).length false)
          eliminatedIds := [] }
      blameCounts := List.replicate slotConfig.length 0
      optionCount := ctx.initialOptionCounts.getD slotConfig.id 0
      queuedCellIdxs := none
      needsSingletonPropagation := false })

/-- `establishArcConsistency`: build the propagator records, seed, and run
the propagation loop. -/
def establishArcConsistency (ctx : ACContext) (slots : List Slot)
    (evaluatingSlot : Option Nat) (fuel : Nat) : ACState × Option ACFailure :=
  let st : ACState := { slots := slots, propSlots := initPropSlots ctx }
  match seedSlots ctx st evaluatingSlot with
  | (st, some e) => (st, some e)
  | (st, none) => acLoop ctx fuel st

/-! ## Search (`backtracking-search.ts`) -/

inductive ACMode where
  | initial
  | choice (c : Choice)
  | elimination (c : Choice) (blamedSlotId : Option Nat)
  deriving Repr, DecidableEq

/-- The result of one `maintainArcConsistency` call: the boolean the TS
function returns, plus the mutated live slots and crossing weights. -/
structure MaintainResult where
  ok : Bool
  slots : List Slot
  crossingWeights : List Rat
  deriving Repr, DecidableEq

/-- The crossing-weight update applied on a propagation failure:
`w' = 1.0 + (w − 1.0) · 0.99 + Δ` for every `(crossingId, Δ)` in the
failure's weight-updates map. -/
def updateCrossingWeights (ws : List Rat) (updates : List (Nat × Rat)) : List Rat :=
  updates.foldl
    (fun ws u =>
      listModify ws u.1 (fun w => 1 + (w - 1) * (99 / 100 : Rat) + u.2))
    ws

/-- The tail of `maintainArcConsistency`, from the propagation result on:
on failure, roll back the tentative change and bump the crossing weights by
the failure's updates; on success, commit the propagated eliminations with
the mode's blamed slot and leave the weights alone. -/
def maintainFinish (config : GridConfig) (mode : ACMode)
    (crossingWeights : List Rat) (est : ACState × Option ACFailure) :
    MaintainResult :=
  match est with
  | (st, some failure) =>
      let slots :=
        match mode with
        | .initial => st.slots
        | .choice c => listModify st.slots c.slotId Slot.clearChoice
        | .elimination c _ =>
            listModify st.slots c.slotId (fun s => s.removeElimination config c.wordId)
      { ok := false, slots := slots,
        crossingWeights := updateCrossingWeights crossingWeights failure.weightUpdates }
  | (st, none) =>
      let blamedSlotId :=
        match mode with
        | .initial => none
        | .choice c => some c.slotId
        | .elimination _ b => b
      let slots := st.propSlots.enum.foldl
        (fun (slots : List Slot) ips =>
          ips.2.elims.eliminatedIds.foldl
            (fun slots wordId =>
              listModify slots ips.1
                (fun s => s.addElimination config wordId blamedSlotId))
            slots)
        st.slots
      { ok := true, slots := slots, crossingWeights := crossingWeights }

/-- `maintainArcConsistency`: apply the tentative change, run
`establishArcConsistency` (with the mode's evaluating slot and the
`remaining == 1 ⇒ fixed` slot marking), then finish as above. -/
def maintainArcConsistency (config : GridConfig) (slots : List Slot)
    (crossingWeights slotWeights : List Rat) (mode : ACMode) (fuel : Nat) :
    MaintainResult :=
  let slots :=
    match mode with
    | .initial => slots
    | .choice c => listModify slots c.slotId (fun s => s.chooseWord config c.wordId)
    | .elimination c blamedSlotId =>
        listModify slots c.slotId
          (fun s => s.addElimination config c.wordId blamedSlotId)
  let remainingOptionCounts := slots.map
    (fun s => if s.fixedWordId.isSome then (1 : Int) else s.remainingOptionCount)
  let fixedSlots := remainingOptionCounts.map (fun c => c = 1)
  let evaluatingSlot :=
    match mode with
    | .initial => none
    | .choice c => some c.slotId
    | .elimination c _ => some c.slotId
  let ctx : ACContext :=
    { config := config, initialOptionCounts := remainingOptionCounts,
      crossingWeights := crossingWeights, slotWeights := slotWeights,
      fixedSlots := fixedSlots }
  maintainFinish config mode crossingWeights
    (establishArcConsistency ctx slots evaluatingSlot fuel)

/-- `calculateSlotWeights`: for each slot, the sum of the crossing weights of
its crossings whose peer slot still has more than one remaining option. -/
def calculateSlotWeights (config : GridConfig) (slots : List Slot)
    (crossingWeights : List Rat) : List Rat :=
  slots.map (fun slot =>
    match config.slotConfigs.get? slot.id with
    | none => 0
    | some sc =>
        sc.crossings.foldl
          (fun sum cr? =>
            match cr? with
            | some cr =>
                match slots.get? cr.otherSlotId with
                | some other =>
                    if other.remainingOptionCount > 1 then
                      sum + crossingWeights.getD cr.crossingId 0
                    else sum
                | none => sum
            | none => sum)
          0)

/-- `ADAPTIVE_BRANCHING_THRESHOLD`. -/
def adaptiveBranchingThreshold : Rat := 15 / 100

/-- `chooseNextSlot`: among unfixed slots with more than one remaining
option, order by `remaining / slotWeight` ascending (stable) and return the
best, except that an eligible previous slot within the adaptive-branching
threshold of the best is reused.  The JS comparator computes
`bestSlotPriority`/`lastSlotPriority` as side effects of the engine's sort,
so which comparisons happen is implementation-defined; the model takes the
minimum over all eligible slots and the previous slot's own priority, which
agrees with the JS whenever the adaptive branch is taken or `lastSlotId` is
absent.  (The statistics counter is not modelled.) -/
def chooseNextSlot (slots : List Slot) (slotWeights : List Rat)
    (lastSlotId : Option Nat) : Option Nat :=
  let eligible := slots.enum.filterMap (fun is =>
    if is.2.fixedWordId = none ∧ is.2.remainingOptionCount > 1 then some is.1
    else none)
  if eligible.isEmpty then none
  else
    let priority : Nat → Rat := fun i =>
      match slots.get? i with
      | some s => jsDiv ((s.remainingOptionCount : Int) : Rat) (slotWeights.getD i 0)
      | none => 0
    let sorted := eligible.foldl
      (fun acc i =>
        match acc.findIdx? (fun j => priority i < priority j) with
        | some k => acc.take k ++ [i] ++ acc.drop k
        | none => acc ++ [i]) []
    let bestSlotPriority := (eligible.map priority).min?
    let lastSlotPriority :=
      match lastSlotId with
      | some l => if l ∈ eligible then some (priority l) else none
      | none => none
    match bestSlotPriority, lastSlotId, lastSlotPriority with
    | some bp, some l, some lp =>
        if lp - bp < adaptiveBranchingThreshold then some l else sorted.head?
    | _, _, _ => sorted.head?

/-- The word-candidate computation in `findFillForSeed`: the first
`RANDOM_WORD_WEIGHTS.length = 3` non-eliminated options, in option-list
order.  (The weighted random choice is a TODO in the source; the code takes
`wordCandidates[0]`.) -/
def wordCandidates (config : GridConfig) (slots : List Slot) (slotId : Nat) :
    List Nat :=
  ((config.slotOptions.getD slotId []).filter (fun wordId =>
      match slots.get? slotId with
      | some s => ((s.eliminations.get? wordId).getD none) = none
      | none => false)).take 3

/-- `const { wordId } = wordCandidates[0]`. -/
def chosenWord (config : GridConfig) (slots : List Slot) (slotId : Nat) :
    Option Nat :=
  (wordCandidates config slots slotId).head?

/-! ## Restart policy (`findFill`) -/

inductive FillResult where
  | success (choices : List Choice)
  | hardFailure
  | timeout
  | abort
  | exceededBacktrackLimit (limit : Int)
  deriving Repr, DecidableEq

/-- The backtrack-limit growth on a restart:
`Math.floor(maxBacktracks * RETRY_GROWTH_FACTOR) + 1` with
`RETRY_GROWTH_FACTOR = 1.1`.  (For every value the loop can reach, the
double-precision product `n * 1.1` rounds to a value with the same floor as
the exact `11 n / 10`, so the float floor is modelled exactly.) -/
def nextBacktrackLimit (n : Nat) : Nat :=
  11 * n / 10 + 1

/-- `maxBacktracks` starts at 500. -/
def initialMaxBacktracks : Nat := 500

/-- The outer retry loop of `findFill`, abstracted over the inner attempt
(`findFillForSeed`, which mutates the search state and returns a result):
restart with a grown limit and the next retry number on
`ExceededBacktrackLimit`, return any other result as is.  The JS loop is
infinite; running out of fuel returns the would-be next attempt's limit as
an `exceededBacktrackLimit`, which no theorem relies on. -/
def findFillOuter {σ : Type} (inner : Nat → Nat → σ → σ × FillResult) :
    Nat → Nat → Nat → σ → FillResult
  | 0, maxBacktracks, _, _ => .exceededBacktrackLimit maxBacktracks
  | fuel + 1, maxBacktracks, retryNum, s =>
      match inner maxBacktracks retryNum s with
      | (s', .exceededBacktrackLimit _) =>
          findFillOuter inner fuel (nextBacktrackLimit maxBacktracks) (retryNum + 1) s'
      | (_, r) => r

/-- The retry loop as entered by `findFill`: first retry number 0, limit
500. -/
def findFillRetryLoop {σ : Type} (inner : Nat → Nat → σ → σ × FillResult)
    (fuel : Nat) (s : σ) : FillResult :=
  findFillOuter inner fuel initialMaxBacktracks 0 s

/-! ## Concrete scenarios used by the claim theorems -/

/-- A word list with the four length-2 words `ab, cd, dx, dy` (glyph ids:
a=0, b=1, c=2, d=3, x=4, y=5). -/
def wlWipe : WordList := WordList.new.replaceList
  [⟨true, [("ab", 50), ("cd", 50), ("dx", 50), ("dy", 50)]⟩] none

/-- Two crossing length-2 slots sharing their first cells: slot 0 (across)
may hold `ab`/`cd`, slot 1 (down) may hold `dx`/`dy`.  Every option of
slot 1 starts with `d`, which no option of slot 0 supports. -/
def cfgWipe : GridConfig :=
  { wordList := wlWipe
    fill := [none, none, none, none]
    slotConfigs :=
      [ { id := 0, startCell := (0, 0), direction := .across, length := 2,
          crossings := [some ⟨1, 0, 0⟩, none] },
        { id := 1, startCell := (0, 0), direction := .down, length := 2,
          crossings := [some ⟨0, 0, 0⟩, none] } ]
    slotOptions := [[0, 1], [2, 3]]
    width := 2, height := 2, crossingCount := 1 }

/-- A word list with the four length-2 words `ab, cd, ax, dx`. -/
def wlSingleton : WordList := WordList.new.replaceList
  [⟨true, [("ab", 50), ("cd", 50), ("ax", 50), ("dx", 50)]⟩] none

/-- The same two-slot geometry, slot 1 holding `ax` (id 2) / `dx` (id 3):
after choosing `ab` for slot 0, propagation eliminates `dx` from slot 1
(count 2 → 1), flagging singleton propagation there. -/
def cfgSingleton : GridConfig :=
  { wordList := wlSingleton
    fill := [none, none, none, none]
    slotConfigs :=
      [ { id := 0, startCell := (0, 0), direction := .across, length := 2,
          crossings := [some ⟨1, 0, 0⟩, none] },
        { id := 1, startCell := (0, 0), direction := .down, length := 2,
          crossings := [some ⟨0, 0, 0⟩, none] } ]
    slotOptions := [[0, 1], [2, 3]]
    width := 2, height := 2, crossingCount := 1 }

/-- The live slots of `cfgSingleton` with `ab` tentatively fixed in slot 0,
exactly as `maintainArcConsistency` prepares them in Choice mode. -/
def slotsSingleton : List Slot :=
  listModify (initSlots cfgSingleton) 0 (fun s => s.chooseWord cfgSingleton 0)

/-- The propagation context `maintainArcConsistency` passes for the Choice
of `ab` in slot 0 of `cfgSingleton` (slot 0 counts as fixed). -/
def ctxSingleton : ACContext :=
  { config := cfgSingleton
    initialOptionCounts := [1, 2]
    crossingWeights := [1]
    slotWeights := [1, 1]
    fixedSlots := [true, false] }

/-- A word list with the four length-2 words `ab, cd, ax, cx`: the two-slot
geometry below is arc-consistent as it stands, so an Initial-mode propagation
succeeds without eliminating anything. -/
def wlOk : WordList := WordList.new.replaceList
  [⟨true, [("ab", 50), ("cd", 50), ("ax", 50), ("cx", 50)]⟩] none

/-- The two-slot geometry over `wlOk`. -/
def cfgOk : GridConfig :=
  { wordList := wlOk
    fill := [none, none, none, none]
    slotConfigs :=
      [ { id := 0, startCell := (0, 0), direction := .across, length := 2,
          crossings := [some ⟨1, 0, 0⟩, none] },
        { id := 1, startCell := (0, 0), direction := .down, length := 2,
          crossings := [some ⟨0, 0, 0⟩, none] } ]
    slotOptions := [[0, 1], [2, 3]]
    width := 2, height := 2, crossingCount := 1 }

/-- A dupe index with window size 2 holding `abc` (word id 0) and `abd`
(word id 1) in the length-3 bucket; the two words share the window `ab`. -/
def dupeIndexShared : DupeIndex :=
  ((DupeIndex.empty 2).addWord 0 (mkWord "abc" "abc" [0, 1, 2] 50 false)).addWord 1
    (mkWord "abd" "abd" [0, 1, 3] 50 false)

/-- A word list built by two successive `replaceList` calls: first `ab`,
then `cd`. -/
def wlTwice : WordList :=
  (WordList.new.replaceList [⟨true, [("ab", 50)]⟩] none).replaceList
    [⟨true, [("cd", 60)]⟩] none

/-- A word list built by two successive `replaceList` calls ingesting the
same word `ab` both times. -/
def wlRepeat : WordList :=
  (WordList.new.replaceList [⟨true, [("ab", 50)]⟩] none).replaceList
    [⟨true, [("ab", 50)]⟩] none

/-- The crossing ids occurring in a crossings list fragment. -/
def crossingIdsOf (l : List (Nat × Option Crossing)) : List Nat :=
  l.filterMap (fun ccr => ccr.2.map Crossing.crossingId)

/-- An `Initial`-mode context for `cfgWipe` in which slot 0 starts with
option count 0. -/
def ctxZero : ACContext :=
  { config := cfgWipe
    initialOptionCounts := [0, 2]
    crossingWeights := [1]
    slotWeights := [1, 1]
    fixedSlots := [false, false] }

/-- Slot 1 of `cfgSingleton`, as a named record. -/
def scB : SlotConfig :=
  { id := 1, startCell := (0, 0), direction := .down, length := 2,
    crossings := [some ⟨0, 0, 0⟩, none] }

/-- A propagator record for slot 1 of `cfgSingleton` down to one option,
with one prior blame on cell 0. -/
def psB : PropSlot :=
  { slotId := 1, elims := ⟨[false, false, false, false], []⟩,
    blameCounts := [0, 1], optionCount := 1,
    queuedCellIdxs := none, needsSingletonPropagation := false }

/-- A propagation state over `slotsSingleton` in which slot 1 holds `psB`. -/
def stB : ACState :=
  { slots := slotsSingleton
    propSlots :=
      [ { slotId := 0, elims := ⟨[false, false, false, false], []⟩,
          blameCounts := [0, 0], optionCount := 1,
          queuedCellIdxs := none, needsSingletonPropagation := false },
        psB ] }

/-- The propagation state right after seeding slot 0 in the Choice-mode
singleton scenario. -/
def stW : ACState :=
  (seedSlots ctxSingleton
    { slots := slotsSingleton, propSlots := initPropSlots ctxSingleton }
    (some 0)).1

theorem slotOptionKeep_eq (ef : List (Option Nat)) (ms : Int)
    (pat : Option (String → Bool)) (al : Option (List Nat)) (i : Nat) (w : Word) :
    slotOptionKeep ef ms pat al i w =
      ((ef.enum.all (fun cf =>
          match cf.2 with
          | none => true
          | some g => decide (w.glyphs.get? cf.1 = some g))) &&
       ((match al with
         | some a => decide (i ∈ a)
         | none => false) ||
        (! w.hidden && decide (ms ≤ w.score) &&
         (match pat with
          | some p => p w.normalizedString
          | none => true)))) := by
  unfold slotOptionKeep
  have hs : (decide (ms ≤ w.score)) = ! (decide (w.score < ms)) := by
    simp [← decide_not, not_lt]
  cases al with
  | none =>
    cases pat with
    | none =>
      cases hh : w.hidden <;> cases hlt : decide (w.score < ms) <;>
        simp [hh, hlt, hs]
    | some p =>
      cases hh : w.hidden <;> cases hlt : decide (w.score < ms) <;>
        cases hp : p w.normalizedString <;> simp [hh, hlt, hp, hs]
  | some a =>
    by_cases hi : i ∈ a
    · cases pat <;> simp [hi]
    · cases pat with
      | none =>
        cases hh : w.hidden <;> cases hlt : decide (w.score < ms) <;>
          simp [hi, hh, hlt, hs]
      | some p =>
        cases hh : w.hidden <;> cases hlt : decide (w.score < ms) <;>
          cases hp : p w.normalizedString <;> simp [hi, hh, hlt, hp, hs]

/-- C1: `generateSlotOptions` returns, for a fully pre-filled slot, the single
WordId obtained by lookup-or-add-hidden for the spelled string; otherwise
exactly the words of the length-L bucket, in bucket (insertion) order, that
agree with every present pre-filled cell and are in the allow-set or pass the
hidden/score/regex criteria. -/
theorem generateSlotOptions_correct (wl : WordList) (entryFill : List (Option Nat))
    (minScore : Int) (filterPattern : Option (String → Bool))
    (allowedWordIds : Option (List Nat)) :
    (generateSlotOptions wl entryFill minScore filterPattern allowedWordIds).2 =
      slotOptionsSpec wl entryFill minScore filterPattern allowedWordIds := by
  unfold generateSlotOptions slotOptionsSpec
  by_cases hc : entryFill.all Option.isSome
  · simp [hc]
  · simp only [hc, if_neg, Bool.false_eq_true, if_false]
    cases hb : wl.words.get? entryFill.length with
    | none =>
      have hb' : wl.words[entryFill.length]? = none := by
        rw [← List.get?_eq_getElem?]; exact hb
      simp [List.getD, hb']
    | some bucket =>
      simp only [List.getD, hb, Option.getD_some]
      congr 1
      apply List.filter_congr
      intro iw _
      exact slotOptionKeep_eq entryFill minScore filterPattern allowedWordIds iw.1 iw.2


/-- `jsDiv` agrees with rational division whenever the divisor is nonzero
(the only case the modelled code reaches). -/
theorem jsDiv_eq_div (a b : Rat) (h : b ≠ 0) : jsDiv a b = a / b := by
  have hbnum : b.num ≠ 0 := Rat.num_ne_zero.mpr h
  have hbnumQ : ((b.num : ℚ)) ≠ 0 := Int.cast_ne_zero.mpr hbnum
  have hadQ : ((a.den : ℚ)) ≠ 0 := Nat.cast_ne_zero.mpr a.den_nz
  have hbdQ : ((b.den : ℚ)) ≠ 0 := Nat.cast_ne_zero.mpr b.den_nz
  unfold jsDiv
  split
  case isTrue hneg =>
    rw [Rat.mkRat_eq_div]
    have h1 : ((b.num.natAbs : ℤ)) = -b.num := Int.ofNat_natAbs_of_nonpos (le_of_lt hneg)
    have hcast : ((b.num.natAbs : ℚ)) = -(b.num : ℚ) := by
      rw [← Int.cast_natCast (R := ℚ), h1, Int.cast_neg]
    conv_rhs => rw [← Rat.num_div_den a, ← Rat.num_div_den b]
    push_cast [hcast]
    field_simp
    try ring
  case isFalse hneg =>
    rw [Rat.mkRat_eq_div]
    have h1 : ((b.num.natAbs : ℤ)) = b.num := Int.natAbs_of_nonneg (not_lt.mp hneg)
    have hcast : ((b.num.natAbs : ℚ)) = (b.num : ℚ) := by
      rw [← Int.cast_natCast (R := ℚ), h1]
    conv_rhs => rw [← Rat.num_div_den a, ← Rat.num_div_den b]
    push_cast [hcast]
    field_simp
    try ring

/-- C2: during singleton propagation the propagator passes the slot id where
the dupe index expects a length, reads the returned length keys back as slot
ids, and so eliminates the unique surviving word of the singleton slot from
that slot itself.  Concretely: after the Choice of `ab` in slot 0 of
`cfgSingleton`, slot 1 drops to its sole survivor `ax` (word 2), whose dupe
report is `{1 ↦ {2}}`; the propagator then "eliminates" word 2 from slot 1
(the eliminated ids of slot 1 end up `[3, 2]`), wiping slot 1 out and
failing the whole call — the claim instead requires eliminations only of
dupes lying in slots distinct from the singleton slot. -/
theorem singletonPropagation_self_eliminates :
    (establishArcConsistency ctxSingleton slotsSingleton (some 0) 10).2 =
      some ⟨[(0, mkRat 1 2)]⟩ ∧
    ((establishArcConsistency ctxSingleton slotsSingleton (some 0) 10).1.propSlots.get?
        1).map (fun ps => ps.elims.eliminatedIds) = some [3, 2] ∧
    wlSingleton.dupeIndex.getDupes 1 2 = [(1, [2])] :=
  ⟨rfl, rfl, rfl⟩

/-- C3: `abc` and `abd` share the length-2 window `ab` and sit in a common
group of `dupeIndexShared.groups`, but `getDupes`/`getDupesByLength` return
only the word itself: `groupKeysByWord` is keyed by tuple object identity
and is probed with a freshly built tuple, so the lookup always misses. -/
theorem getDupes_drops_substring_dupes :
    dupeIndexShared.getDupes 3 0 = [(3, [0])] ∧
    dupeIndexShared.getDupesByLength ⟨dupeIndexShared.nextRef, (3, 0)⟩ = [(3, [0])] ∧
    ∃ g ∈ dupeIndexShared.groups, (3, 0) ∈ g ∧ (3, 1) ∈ g :=
  ⟨rfl, rfl, ⟨[(3, 0), (3, 1)], by decide⟩⟩

/-- C5: `GridConfig.fill` stores `none` for blocked and empty cells alike, so
`renderGrid` prints `'.'` for a blocked cell: the template `".#\n.."` renders
back as `"..\n.."` and does not round-trip. -/
theorem renderGrid_renders_blocks_as_dots :
    renderGrid (generateGridConfigFromTemplateString WordList.new ".#\n.." 0) [] =
      "..\n.." ∧ "..\n.." ≠ ".#\n.." :=
  ⟨rfl, by decide⟩

/-- C8: slot and word selection are deterministic — `chooseNextSlot` returns
the priority-minimal eligible slot and the chosen word is the first
non-eliminated option; no weighted `[4, 2, 1]` sampling and no seeded PRNG
exist in the code (both are TODO comments). -/
theorem slot_and_word_choice_deterministic :
    chooseNextSlot (initSlots cfgWipe) [1, 1] none = some 0 ∧
    wordCandidates cfgWipe (initSlots cfgWipe) 0 = [0, 1] ∧
    chosenWord cfgWipe (initSlots cfgWipe) 0 = some 0 :=
  ⟨rfl, rfl, rfl⟩

/-- C10: a failing Choice-mode `maintainArcConsistency` call restores the
tentative choice, the eliminations and the option counts, but the
propagation decremented slot 1's *live* per-cell glyph counts through the
adapter alias (`getGlyphCounts` returns the live array, no clone is taken)
and the failure path never restores them: on `cfgWipe`, choosing `ab` for
slot 0 leaves slot 1's counts at `[[0,0,0,1,0,0],[0,0,0,0,0,1]]` instead of
the original `[[0,0,0,2,0,0],[0,0,0,0,1,1]]`. -/
theorem maintain_failure_corrupts_glyph_counts :
    (maintainArcConsistency cfgWipe (initSlots cfgWipe) (initialCrossingWeights cfgWipe)
        [1, 1] (.choice ⟨0, 0⟩) 10).ok = false ∧
    ((maintainArcConsistency cfgWipe (initSlots cfgWipe) (initialCrossingWeights cfgWipe)
        [1, 1] (.choice ⟨0, 0⟩) 10).slots.get? 0) = ((initSlots cfgWipe).get? 0) ∧
    ((maintainArcConsistency cfgWipe (initSlots cfgWipe) (initialCrossingWeights cfgWipe)
        [1, 1] (.choice ⟨0, 0⟩) 10).slots.get? 1).map Slot.eliminations =
      ((initSlots cfgWipe).get? 1).map Slot.eliminations ∧
    ((maintainArcConsistency cfgWipe (initSlots cfgWipe) (initialCrossingWeights cfgWipe)
        [1, 1] (.choice ⟨0, 0⟩) 10).slots.get? 1).map Slot.remainingOptionCount =
      ((initSlots cfgWipe).get? 1).map Slot.remainingOptionCount ∧
    ((maintainArcConsistency cfgWipe (initSlots cfgWipe) (initialCrossingWeights cfgWipe)
        [1, 1] (.choice ⟨0, 0⟩) 10).slots.get? 1).map Slot.glyphCountsByCell ≠
      ((initSlots cfgWipe).get? 1).map Slot.glyphCountsByCell := by
  refine ⟨rfl, rfl, rfl, rfl, ?_⟩
  have h1 : ((maintainArcConsistency cfgWipe (initSlots cfgWipe)
      (initialCrossingWeights cfgWipe) [1, 1] (.choice ⟨0, 0⟩) 10).slots.get? 1).map
        Slot.glyphCountsByCell =
      some [[0, 0, 0, 1, 0, 0], [0, 0, 0, 0, 0, 1]] := rfl
  have h2 : ((initSlots cfgWipe).get? 1).map Slot.glyphCountsByCell =
      some [[0, 0, 0, 2, 0, 0], [0, 0, 0, 0, 1, 1]] := rfl
  rw [h1, h2]
  decide

/-- C4 counterexample: a second `replaceList` call does not clear the store —
the previously ingested `ab` survives next to the new `cd`, and re-ingesting
`ab` stores it a second time, so a normalized string can then appear twice. -/
theorem replaceList_keeps_previous_words :
    (wlTwice.words.getD 2 []).map Word.normalizedString = ["ab", "cd"] ∧
    (wlRepeat.words.getD 2 []).map Word.normalizedString = ["ab", "ab"] :=
  ⟨rfl, rfl⟩

/-- C9 counterexample: the restart growth is `floor(1.1 · n) + 1`, not
`ceil(1.1 · n)`: from the initial limit 500 the next limit is 551, while
`⌈1.1 · 500⌉ = 550`. -/
theorem nextBacktrackLimit_not_ceil :
    nextBacktrackLimit 500 = 551 ∧ ⌈(11 * 500 : ℚ) / 10⌉ = 550 ∧ (551 : ℤ) ≠ 550 :=
  ⟨rfl, by norm_num, by decide⟩


set_option maxRecDepth 4000

theorem internGlyph_spec (st : WordList × List Nat) (c : Char) :
    (internGlyph st c).1.words = st.1.words ∧
    (internGlyph st c).1.maxLength = st.1.maxLength ∧
    (internGlyph st c).2.length = st.2.length + 1 := by
  unfold internGlyph
  cases h : jsMapGet st.1.glyphIdByChar c <;>
    exact ⟨rfl, rfl, by rw [List.length_append]; rfl⟩

theorem internGlyph_fold_spec (cs : List Char) :
    ∀ (st : WordList × List Nat),
      (cs.foldl internGlyph st).1.words = st.1.words ∧
      (cs.foldl internGlyph st).1.maxLength = st.1.maxLength ∧
      (cs.foldl internGlyph st).2.length = st.2.length + cs.length := by
  induction cs with
  | nil => intro st; exact ⟨rfl, rfl, rfl⟩
  | cons c rest ih =>
    intro st
    rw [List.foldl_cons]
    have h1 := internGlyph_spec st c
    have h2 := ih (internGlyph st c)
    refine ⟨h2.1.trans h1.1, h2.2.1.trans h1.2.1, ?_⟩
    rw [h2.2.2, h1.2.2, List.length_cons]
    omega

theorem getGlyphIds_spec (wl : WordList) (s : String) :
    (getGlyphIds wl s).1.words = wl.words ∧
    (getGlyphIds wl s).1.maxLength = wl.maxLength ∧
    (getGlyphIds wl s).2.length = s.length := by
  have h := internGlyph_fold_spec s.toList (wl, [])
  unfold getGlyphIds
  refine ⟨h.1, h.2.1, ?_⟩
  rw [h.2.2]
  show 0 + s.toList.length = s.length
  rw [Nat.zero_add]
  rfl

theorem growBuckets_getD (words : List (List Word)) (n L : Nat) :
    (growBuckets words n).getD L [] = words.getD L [] := by
  unfold growBuckets
  split
  case isTrue h =>
    simp only [List.getD, List.get?_eq_getElem?, List.getElem?_append]
    split
    case isTrue => rfl
    case isFalse hL =>
      rw [List.getElem?_eq_none (Nat.not_lt.mp hL), List.getElem?_replicate]
      split <;> rfl
  case isFalse h => rfl

theorem growBuckets_length (words : List (List Word)) (n : Nat) :
    n < (growBuckets words n).length := by
  unfold growBuckets
  split
  case isTrue h =>
    rw [List.length_append, List.length_replicate]
    omega
  case isFalse h => omega

theorem listModify_getD_self {α : Type} (l : List α) (i : Nat) (f : α → α) (d : α)
    (h : i < l.length) : (listModify l i f).getD i d = f (l.getD i d) := by
  unfold listModify
  rw [List.get?_eq_getElem?, List.getElem?_eq_getElem h]
  simp only [List.getD, List.get?_eq_getElem?]
  rw [List.getElem?_set_self (by simpa using h), List.getElem?_eq_getElem h]
  rfl

theorem listModify_getD_ne {α : Type} (l : List α) (i j : Nat) (f : α → α) (d : α)
    (h : j ≠ i) : (listModify l i f).getD j d = l.getD j d := by
  unfold listModify
  cases hg : l.get? i with
  | none => rfl
  | some a =>
      simp only [List.getD, List.get?_eq_getElem?]
      rw [List.getElem?_set_ne (Ne.symm h)]

/-- The effect of one `replaceListStep` on an ingested (kept) entry. -/
theorem replaceListStep_kept (wl : WordList) (seen : List String)
    (e : RawWordListEntry) (hf : entryLengthFiltered wl.maxLength e = false)
    (hs : e.normalized ∉ seen) :
    ∃ glyphs,
      (replaceListStep (wl, seen) e).2 = seen ++ [e.normalized] ∧
      (replaceListStep (wl, seen) e).1.maxLength = wl.maxLength ∧
      glyphs.length = e.normalized.length ∧
      (replaceListStep (wl, seen) e).1.words =
        listModify (growBuckets wl.words glyphs.length) glyphs.length
          (fun b => b ++ [mkWord e.normalized e.canonical glyphs e.score false]) := by
  refine ⟨(getGlyphIds wl e.normalized).2, ?_⟩
  have hg := getGlyphIds_spec wl e.normalized
  unfold replaceListStep
  simp only [hf, Bool.false_eq_true, if_false, decide_eq_true_eq]
  rw [if_neg hs]
  refine ⟨rfl, hg.2.1, hg.2.2, ?_⟩
  simp only [hg.1]

/-- The effect of one skipped `replaceListStep`. -/
theorem replaceListStep_skipped (wl : WordList) (seen : List String)
    (e : RawWordListEntry)
    (h : entryLengthFiltered wl.maxLength e = true ∨ e.normalized ∈ seen) :
    replaceListStep (wl, seen) e = (wl, seen) := by
  unfold replaceListStep
  dsimp only
  rcases h with h | h
  · rw [if_pos h]
  · by_cases hf : entryLengthFiltered wl.maxLength e
    · rw [if_pos hf]
    · rw [if_neg (by simp [hf]), if_pos h]

/-- The cumulative effect of folding `replaceListStep` over a list of raw
entries: each bucket is extended, in order, with exactly the first-occurrence
(dedup) survivors of that glyph length. -/
theorem replaceList_fold_delta (entries : List RawWordListEntry) :
    ∀ (wl : WordList) (seen : List String),
      (entries.foldl replaceListStep (wl, seen)).1.maxLength = wl.maxLength ∧
      ∀ (L : Nat),
        ((entries.foldl replaceListStep (wl, seen)).1.words.getD L []).map
            (fun w => (w.normalizedString, w.canonicalString, w.score, w.hidden)) =
          ((wl.words.getD L []).map
            (fun w => (w.normalizedString, w.canonicalString, w.score, w.hidden))) ++
          ((ingestDedup wl.maxLength seen entries).filter
              (fun e => e.normalized.length = L)).map
            (fun e => (e.normalized, e.canonical, e.score, false)) := by
  induction entries with
  | nil => intro wl seen; exact ⟨rfl, fun L => by simp [ingestDedup]⟩
  | cons e rest ih =>
    intro wl seen
    rw [List.foldl_cons]
    by_cases hf : entryLengthFiltered wl.maxLength e
    · rw [replaceListStep_skipped wl seen e (Or.inl hf)]
      have := ih wl seen
      refine ⟨this.1, fun L => ?_⟩
      rw [this.2 L]
      simp [ingestDedup, hf]
    · by_cases hs : e.normalized ∈ seen
      · rw [replaceListStep_skipped wl seen e (Or.inr hs)]
        have := ih wl seen
        refine ⟨this.1, fun L => ?_⟩
        rw [this.2 L]
        simp [ingestDedup, hf, hs]
      · obtain ⟨glyphs, h2, hml, hlen, hwords⟩ :=
          replaceListStep_kept wl seen e (by simpa using hf) hs
        have hpair : replaceListStep (wl, seen) e =
            ((replaceListStep (wl, seen) e).1, seen ++ [e.normalized]) := by
          rw [← h2]
        rw [hpair]
        have := ih (replaceListStep (wl, seen) e).1 (seen ++ [e.normalized])
        refine ⟨this.1.trans hml, fun L => ?_⟩
        rw [this.2 L, hml, hwords]
        have hded : ingestDedup wl.maxLength seen (e :: rest) =
            e :: ingestDedup wl.maxLength (seen ++ [e.normalized]) rest := by
          simp only [ingestDedup]
          rw [if_neg (by simpa using hf), if_neg hs]
        rw [hded, hlen]
        by_cases hL : e.normalized.length = L
        · subst hL
          rw [listModify_getD_self _ _ _ _
              (growBuckets_length wl.words e.normalized.length),
            growBuckets_getD]
          simp only [List.filter_cons, decide_eq_true_eq]
          simp [mkWord]
        · rw [listModify_getD_ne _ _ _ _ _ (fun hh => hL hh.symm), growBuckets_getD]
          simp only [List.filter_cons]
          rw [if_neg (by simp [hL])]

/-- Folding over the sources (skipping disabled ones) equals folding over the
concatenation of the enabled sources' entries. -/
theorem replaceList_sources_fold (sources : List WordListSource) :
    ∀ (st : WordList × List String),
      sources.foldl
        (fun st source =>
          if source.enabled then (loadWordsFromSource source).foldl replaceListStep st
          else st) st =
      ((sources.filter (·.enabled)).flatMap loadWordsFromSource).foldl
        replaceListStep st := by
  induction sources with
  | nil => intro st; rfl
  | cons src rest ih =>
    intro st
    rw [List.foldl_cons]
    by_cases h : src.enabled
    · rw [if_pos h]
      rw [List.filter_cons_of_pos (by simpa using h), List.flatMap_cons,
        List.foldl_append]
      exact ih _
    · rw [if_neg h]
      rw [List.filter_cons_of_neg (by simpa using h)]
      exact ih st

/-- `ingestDedup` keeps each normalized string at most once, and never keeps
one that was already seen. -/
theorem ingestDedup_nodup (maxLength : Option Nat) (entries : List RawWordListEntry) :
    ∀ (seen : List String),
      ((ingestDedup maxLength seen entries).map RawWordListEntry.normalized).Nodup ∧
      ∀ e ∈ ingestDedup maxLength seen entries, e.normalized ∉ seen := by
  induction entries with
  | nil => intro seen; simp [ingestDedup]
  | cons e rest ih =>
    intro seen
    by_cases hf : entryLengthFiltered maxLength e
    · have hded : ingestDedup maxLength seen (e :: rest) =
          ingestDedup maxLength seen rest := by
        simp only [ingestDedup]
        rw [if_pos hf]
      rw [hded]
      exact ih seen
    · by_cases hs : e.normalized ∈ seen
      · have hded : ingestDedup maxLength seen (e :: rest) =
            ingestDedup maxLength seen rest := by
          simp only [ingestDedup]
          rw [if_neg (by simpa using hf), if_pos hs]
        rw [hded]
        exact ih seen
      · have hded : ingestDedup maxLength seen (e :: rest) =
            e :: ingestDedup maxLength (seen ++ [e.normalized]) rest := by
          simp only [ingestDedup]
          rw [if_neg (by simpa using hf), if_neg hs]
        rw [hded]
        have hrest := ih (seen ++ [e.normalized])
        constructor
        · rw [List.map_cons, List.nodup_cons]
          constructor
          · intro hmem
            obtain ⟨e', he', heq⟩ := List.mem_map.mp hmem
            have := hrest.2 e' he'
            rw [heq] at this
            exact this (List.mem_append_right _ (List.mem_singleton.mpr rfl))
          · exact hrest.1
        · intro e' he'
          rcases List.mem_cons.mp he' with h | h
          · rw [h]; exact hs
          · intro hmem
            exact hrest.2 e' h (List.mem_append_left _ hmem)

/-- C4 (amended): `replaceList` does not clear, it appends; on a
freshly-constructed word list, after `replaceList(sources)` each length
bucket holds, in ingestion order, exactly the entries of that length from
the enabled sources with the first source that mentions a normalized string
owning it (its canonical string and score are stored, hidden is false); in
particular every normalized string appears at most once in the store. -/
theorem replaceList_on_fresh_store_exact (sources : List WordListSource)
    (maxLength : Option Nat) (L : Nat) :
    (((WordList.new.replaceList sources maxLength).words.getD L []).map
        (fun w => (w.normalizedString, w.canonicalString, w.score, w.hidden)) =
      ((ingestedEntries sources maxLength).filter
          (fun e => e.normalized.length = L)).map
        (fun e => (e.normalized, e.canonical, e.score, false))) ∧
    (((WordList.new.replaceList sources maxLength).words.getD L []).map
        Word.normalizedString).Nodup ∧
    ∀ w ∈ (WordList.new.replaceList sources maxLength).words.getD L [],
      w.normalizedString.length = L := by
  have hrepl : WordList.new.replaceList sources maxLength =
      (((sources.filter (·.enabled)).flatMap loadWordsFromSource).foldl
        replaceListStep ({ WordList.new with maxLength := maxLength }, [])).1 := by
    unfold WordList.replaceList
    dsimp only
    rw [replaceList_sources_fold]
  have hd := replaceList_fold_delta
    ((sources.filter (·.enabled)).flatMap loadWordsFromSource)
    { WordList.new with maxLength := maxLength } []
  have hempty : ∀ L', ({ WordList.new with maxLength := maxLength } :
      WordList).words.getD L' [] = [] := by
    intro L'
    cases L' with
    | zero => rfl
    | succ n => rfl
  have hproj := hd.2 L
  rw [hempty L] at hproj
  simp only [List.map_nil, List.nil_append] at hproj
  have hbucket : ((WordList.new.replaceList sources maxLength).words.getD L []).map
      (fun w => (w.normalizedString, w.canonicalString, w.score, w.hidden)) =
      ((ingestedEntries sources maxLength).filter
          (fun e => e.normalized.length = L)).map
        (fun e => (e.normalized, e.canonical, e.score, false)) := by
    rw [hrepl]
    exact hproj
  refine ⟨hbucket, ?_, ?_⟩
  · have hnames : ((WordList.new.replaceList sources maxLength).words.getD L []).map
        Word.normalizedString =
        ((ingestedEntries sources maxLength).filter
            (fun e => e.normalized.length = L)).map RawWordListEntry.normalized := by
      have := congrArg (List.map (fun t : String × String × Int × Bool => t.1)) hbucket
      simpa [List.map_map, Function.comp] using this
    rw [hnames]
    have hsub : (((ingestedEntries sources maxLength).filter
          (fun e => e.normalized.length = L)).map RawWordListEntry.normalized).Sublist
        ((ingestedEntries sources maxLength).map RawWordListEntry.normalized) :=
      (List.filter_sublist _).map RawWordListEntry.normalized
    exact ((ingestDedup_nodup maxLength _ []).1).sublist hsub
  · intro w hw
    have : (fun w : Word => (w.normalizedString, w.canonicalString, w.score, w.hidden)) w ∈
        ((ingestedEntries sources maxLength).filter
            (fun e => e.normalized.length = L)).map
          (fun e => (e.normalized, e.canonical, e.score, false)) := by
      rw [← hbucket]
      exact List.mem_map_of_mem _ hw
    obtain ⟨e, he, heq⟩ := List.mem_map.mp this
    have hlen : e.normalized.length = L := by
      have := (List.mem_filter.mp he).2
      simpa using this
    have hname : e.normalized = w.normalizedString := congrArg (fun t => t.1) heq
    rw [← hname]
    exact hlen

/-- Witness for the amended C4 theorem at a concrete input: the single word
`ab` ingested into a fresh list sits in bucket 2, and the theorem's
per-word length clause applies to it. -/
theorem replaceList_on_fresh_store_exact_witness :
    (((WordList.new.replaceList [⟨true, [("ab", 50)]⟩] none).words.getD 2 []).map
        (fun w => (w.normalizedString, w.canonicalString, w.score, w.hidden)) =
      [("ab", "ab", (50 : Int), false)]) ∧
    (mkWord "ab" "ab" [0, 1] 50 false).normalizedString.length = 2 :=
  ⟨(replaceList_on_fresh_store_exact [⟨true, [("ab", 50)]⟩] none 2).1.trans rfl,
   (replaceList_on_fresh_store_exact [⟨true, [("ab", 50)]⟩] none 2).2.2
     (mkWord "ab" "ab" [0, 1] 50 false) (by decide)⟩


/-- C9 (amended): the retry loop enters with `maxBacktracks = 500`; an inner
attempt returning `ExceededBacktrackLimit` triggers a restart with the limit
grown to `floor(1.1 · previous) + 1` and the retry number incremented, while
every other terminal result is returned to the caller unchanged. -/
theorem findFill_restart_policy {σ : Type} (inner : Nat → Nat → σ → σ × FillResult)
    (fuel maxBacktracks retryNum : Nat) (s : σ) :
    (findFillRetryLoop inner fuel s = findFillOuter inner fuel 500 0 s) ∧
    (∀ r : FillResult, (inner maxBacktracks retryNum s).2 = r →
      (∀ l, r ≠ FillResult.exceededBacktrackLimit l) →
      findFillOuter inner (fuel + 1) maxBacktracks retryNum s = r) ∧
    (∀ l, (inner maxBacktracks retryNum s).2 = FillResult.exceededBacktrackLimit l →
      findFillOuter inner (fuel + 1) maxBacktracks retryNum s =
        findFillOuter inner fuel (nextBacktrackLimit maxBacktracks) (retryNum + 1)
          (inner maxBacktracks retryNum s).1) ∧
    nextBacktrackLimit maxBacktracks = 11 * maxBacktracks / 10 + 1 := by
  refine ⟨rfl, ?_, ?_, rfl⟩
  · intro r hr hne
    show (match inner maxBacktracks retryNum s with
      | (s', FillResult.exceededBacktrackLimit _) =>
          findFillOuter inner fuel (nextBacktrackLimit maxBacktracks) (retryNum + 1) s'
      | (_, r) => r) = r
    rcases hi : inner maxBacktracks retryNum s with ⟨s', res⟩
    rw [hi] at hr
    cases res with
    | exceededBacktrackLimit l =>
        have hr' : FillResult.exceededBacktrackLimit l = r := hr
        exact absurd hr'.symm (hne l)
    | success choices => simpa using hr
    | hardFailure => simpa using hr
    | timeout => simpa using hr
    | abort => simpa using hr
  · intro l hl
    show (match inner maxBacktracks retryNum s with
      | (s', FillResult.exceededBacktrackLimit _) =>
          findFillOuter inner fuel (nextBacktrackLimit maxBacktracks) (retryNum + 1) s'
      | (_, r) => r) = _
    rcases hi : inner maxBacktracks retryNum s with ⟨s', res⟩
    rw [hi] at hl
    have hres : res = FillResult.exceededBacktrackLimit l := hl
    subst hres
    rfl

/-- Witness for the restart-policy theorem: an inner attempt that immediately
hard-fails is propagated unchanged, and one that exceeds the limit restarts
with limit 551. -/
theorem findFill_restart_policy_witness :
    findFillOuter (fun _ _ (s : Unit) => (s, FillResult.hardFailure)) 1 500 0 () =
      FillResult.hardFailure ∧
    findFillOuter (fun _ _ (s : Unit) => (s, FillResult.exceededBacktrackLimit 7)) 1 500 0 () =
      findFillOuter (fun _ _ (s : Unit) => (s, FillResult.exceededBacktrackLimit 7)) 0 551 1 () :=
  ⟨(findFill_restart_policy (fun _ _ (s : Unit) => (s, FillResult.hardFailure)) 0 500 0 ()).2.1
      FillResult.hardFailure rfl (fun _ h => FillResult.noConfusion h),
   ((findFill_restart_policy (fun _ _ (s : Unit) => (s, FillResult.exceededBacktrackLimit 7)) 0 500 0 ()).2.2.1
      7 rfl).trans rfl⟩


theorem maintainFinish_ok_weights (config : GridConfig) (mode : ACMode)
    (cw : List Rat) (est : ACState × Option ACFailure) :
    (maintainFinish config mode cw est).ok = true →
    (maintainFinish config mode cw est).crossingWeights = cw := by
  rcases est with ⟨st, f?⟩
  cases f? with
  | none => intro _; rfl
  | some f =>
      intro h
      have h' : false = true := h
      cases h'

theorem listModify_mem {α : Type} {l : List α} {i : Nat} {f : α → α} {x : α}
    (hx : x ∈ listModify l i f) : x ∈ l ∨ ∃ a ∈ l, x = f a := by
  unfold listModify at hx
  cases hg : l.get? i with
  | none => rw [hg] at hx; exact Or.inl hx
  | some a =>
      rw [hg] at hx
      rcases List.mem_or_eq_of_mem_set hx with h | h
      · exact Or.inl h
      · exact Or.inr ⟨a, List.get?_mem hg, h⟩

theorem updateCrossingWeights_ge_one (updates : List (Nat × Rat)) :
    ∀ (ws : List Rat), (∀ w ∈ ws, (1 : Rat) ≤ w) → (∀ u ∈ updates, (0 : Rat) ≤ u.2) →
      ∀ w ∈ updateCrossingWeights ws updates, (1 : Rat) ≤ w := by
  induction updates with
  | nil => intro ws hws _ w hw; exact hws w hw
  | cons u rest ih =>
    intro ws hws hupd w hw
    have hstep : ∀ w' ∈ listModify ws u.1
        (fun w' => 1 + (w' - 1) * (99 / 100 : Rat) + u.2), (1 : Rat) ≤ w' := by
      intro w' hw'
      rcases listModify_mem hw' with h | ⟨a, ha, heq⟩
      · exact hws w' h
      · have h1 : (1 : Rat) ≤ a := hws a ha
        have h2 : (0 : Rat) ≤ u.2 := hupd u (List.mem_cons_self u rest)
        have h3 : (0 : Rat) ≤ (a - 1) * (99 / 100 : Rat) :=
          mul_nonneg (by linarith) (by norm_num)
        rw [heq]
        linarith
    have hupd' : ∀ u' ∈ rest, (0 : Rat) ≤ u'.2 :=
      fun u' hu' => hupd u' (List.mem_cons_of_mem u hu')
    exact ih _ hstep hupd' w hw

/-- C7: crossing weights start at 1.0; `maintainFinish` (the tail of every
`maintainArcConsistency` call) leaves them unchanged on success and rewrites
them by `w' = 1.0 + (w − 1.0) · 0.99 + Δ` over the failure's weight-updates
map on failure; and any such update with non-negative reported increments
keeps every weight ≥ 1.0, so by induction the weights stay ≥ 1.0 throughout
a search. -/
theorem crossingWeights_invariant :
    (∀ config : GridConfig, ∀ w ∈ initialCrossingWeights config, w = 1) ∧
    (∀ (config : GridConfig) (mode : ACMode) (cw : List Rat)
        (est : ACState × Option ACFailure),
      (est.2 = none →
        (maintainFinish config mode cw est).ok = true ∧
        (maintainFinish config mode cw est).crossingWeights = cw) ∧
      (∀ f, est.2 = some f →
        (maintainFinish config mode cw est).ok = false ∧
        (maintainFinish config mode cw est).crossingWeights =
          updateCrossingWeights cw f.weightUpdates)) ∧
    (∀ (config : GridConfig) (slots : List Slot) (cw sw : List Rat)
        (mode : ACMode) (fuel : Nat),
      (maintainArcConsistency config slots cw sw mode fuel).ok = true →
      (maintainArcConsistency config slots cw sw mode fuel).crossingWeights = cw) ∧
    (∀ (updates : List (Nat × Rat)) (ws : List Rat),
      (∀ w ∈ ws, (1 : Rat) ≤ w) → (∀ u ∈ updates, (0 : Rat) ≤ u.2) →
      ∀ w ∈ updateCrossingWeights ws updates, (1 : Rat) ≤ w) := by
  refine ⟨?_, ?_, ?_, fun updates => updateCrossingWeights_ge_one updates⟩
  · intro config w hw
    exact List.eq_of_mem_replicate hw
  · intro config mode cw est
    rcases est with ⟨st, f?⟩
    constructor
    · intro h
      cases f? with
      | none => exact ⟨rfl, rfl⟩
      | some f =>
          have h' : some f = none := h
          cases h'
    · intro f h
      cases f? with
      | none =>
          have h' : (none : Option ACFailure) = some f := h
          cases h'
      | some f' =>
          have h' : some f' = some f := h
          cases h'
          exact ⟨rfl, rfl⟩
  · intro config slots cw sw mode fuel
    exact maintainFinish_ok_weights config mode cw _

/-- Witness for C7 at concrete inputs: the initial weight of `cfgWipe`'s one
crossing is 1; a failing `maintainFinish` applies the update map; a
successful Initial-mode `maintainArcConsistency` on `cfgOk` leaves the
weights unchanged; and the update formula keeps a weight of 1 at least 1
under the increment 1/2. -/
theorem crossingWeights_invariant_witness :
    ((1 : Rat) = 1) ∧
    ((maintainFinish cfgWipe (.choice ⟨0, 0⟩) [1]
        (⟨initSlots cfgWipe, []⟩, some ⟨[(0, mkRat 1 2)]⟩)).ok = false ∧
     (maintainFinish cfgWipe (.choice ⟨0, 0⟩) [1]
        (⟨initSlots cfgWipe, []⟩, some ⟨[(0, mkRat 1 2)]⟩)).crossingWeights =
       updateCrossingWeights [1] [(0, mkRat 1 2)]) ∧
    ((maintainArcConsistency cfgOk (initSlots cfgOk) [1] [1, 1] .initial
        10).crossingWeights = [1]) ∧
    (1 : Rat) ≤ 1 + ((1 : Rat) - 1) * (99 / 100) + mkRat 1 2 :=
  ⟨crossingWeights_invariant.1 cfgWipe 1 (by decide),
   (crossingWeights_invariant.2.1 cfgWipe (.choice ⟨0, 0⟩) [1]
      (⟨initSlots cfgWipe, []⟩, some ⟨[(0, mkRat 1 2)]⟩)).2 ⟨[(0, mkRat 1 2)]⟩ rfl,
   crossingWeights_invariant.2.2.1 cfgOk (initSlots cfgOk) [1] [1, 1] .initial 10 rfl,
   crossingWeights_invariant.2.2.2 [(0, mkRat 1 2)] [1]
     (by intro w hw; rw [List.mem_singleton] at hw; subst hw; exact le_refl 1)
     (by intro u hu; rw [List.mem_singleton] at hu; subst hu; decide)
     (1 + ((1 : Rat) - 1) * (99 / 100) + mkRat 1 2)
     (by
       show (1 + ((1 : Rat) - 1) * (99 / 100) + mkRat 1 2) ∈
         [1 + ((1 : Rat) - 1) * (99 / 100) + mkRat 1 2]
       exact List.mem_singleton.mpr rfl)⟩

theorem jsMapGet_set_self {κ α : Type} [DecidableEq κ] (m : List (κ × α)) (k : κ) (v : α) :
    jsMapGet (jsMapSet m k v) k = some v := by
  induction m with
  | nil => simp [jsMapSet, jsMapGet]
  | cons kv rest ih =>
      by_cases h : k = kv.1
      · simp [jsMapSet, jsMapGet, h]
      · simp only [jsMapSet]
        rw [if_neg h]
        simp only [jsMapGet]
        rw [if_neg h]
        exact ih

theorem jsMapGet_set_ne {κ α : Type} [DecidableEq κ] (m : List (κ × α)) (k k' : κ) (v : α)
    (h : k' ≠ k) : jsMapGet (jsMapSet m k v) k' = jsMapGet m k' := by
  induction m with
  | nil => simp [jsMapSet, jsMapGet, h]
  | cons kv rest ih =>
      by_cases hk : k = kv.1
      · simp only [jsMapSet]
        rw [if_pos hk]
        simp only [jsMapGet]
        rw [if_neg (hk ▸ h), if_neg (by rw [← hk]; exact h)]
      · simp only [jsMapSet]
        rw [if_neg hk]
        simp only [jsMapGet]
        by_cases hk' : k' = kv.1
        · rw [if_pos hk', if_pos hk']
        · rw [if_neg hk', if_neg hk']
          exact ih

theorem crossingIdsOf_cons_none (ccr : Nat × Option Crossing)
    (rest : List (Nat × Option Crossing)) (hc : ccr.2 = none) :
    crossingIdsOf (ccr :: rest) = crossingIdsOf rest := by
  simp [crossingIdsOf, hc]

theorem crossingIdsOf_cons_some (ccr : Nat × Option Crossing)
    (rest : List (Nat × Option Crossing)) (cr : Crossing) (hc : ccr.2 = some cr) :
    crossingIdsOf (ccr :: rest) = cr.crossingId :: crossingIdsOf rest := by
  simp [crossingIdsOf, hc]

theorem fwuStep_fold_absent (b : List Int) (i : Int) (k : Nat) :
    ∀ (l : List (Nat × Option Crossing)) (m : List (Nat × Rat)),
      k ∉ crossingIdsOf l →
      jsMapGet (l.foldl (fwuStep b i) m) k = jsMapGet m k := by
  intro l
  induction l with
  | nil => intro m _; rfl
  | cons ccr rest ih =>
    intro m hk
    rw [List.foldl_cons]
    cases hc : ccr.2 with
    | none =>
        rw [crossingIdsOf_cons_none ccr rest hc] at hk
        have hstep : fwuStep b i m ccr = m := by unfold fwuStep; rw [hc]
        rw [hstep]
        exact ih m hk
    | some cr =>
        rw [crossingIdsOf_cons_some ccr rest cr hc] at hk
        have hk1 : k ≠ cr.crossingId :=
          fun he => hk (List.mem_cons.mpr (Or.inl he))
        have hk2 : k ∉ crossingIdsOf rest :=
          fun hm => hk (List.mem_cons.mpr (Or.inr hm))
        have hstep : fwuStep b i m ccr =
            jsMapSet m cr.crossingId
              (jsDiv ((b.getD ccr.1 0 : Int) : Rat) ((i : Int) : Rat)) := by
          unfold fwuStep; rw [hc]
        rw [hstep, ih _ hk2, jsMapGet_set_ne _ _ _ _ hk1]

theorem fwuStep_fold_lookup (b : List Int) (i : Int) :
    ∀ (l : List (Nat × Option Crossing)) (m : List (Nat × Rat))
      (cellIdx : Nat) (cr : Crossing),
      (cellIdx, some cr) ∈ l → (crossingIdsOf l).Nodup →
      jsMapGet (l.foldl (fwuStep b i) m) cr.crossingId =
        some (jsDiv ((b.getD cellIdx 0 : Int) : Rat) ((i : Int) : Rat)) := by
  intro l
  induction l with
  | nil => intro m cellIdx cr hmem _; cases hmem
  | cons ccr rest ih =>
    intro m cellIdx cr hmem hnodup
    rw [List.foldl_cons]
    rcases List.mem_cons.mp hmem with h | h
    · have hc : ccr.2 = some cr := by rw [← h]
      have hcell : ccr.1 = cellIdx := by rw [← h]
      have hstep : fwuStep b i m ccr =
          jsMapSet m cr.crossingId
            (jsDiv ((b.getD cellIdx 0 : Int) : Rat) ((i : Int) : Rat)) := by
        unfold fwuStep; rw [hc, hcell]
      have hrest : cr.crossingId ∉ crossingIdsOf rest := by
        rw [crossingIdsOf_cons_some ccr rest cr hc] at hnodup
        exact (List.nodup_cons.mp hnodup).1
      rw [hstep, fwuStep_fold_absent b i cr.crossingId rest _ hrest]
      exact jsMapGet_set_self m cr.crossingId _
    · have hnodup' : (crossingIdsOf rest).Nodup := by
        cases hc : ccr.2 with
        | none => rwa [crossingIdsOf_cons_none ccr rest hc] at hnodup
        | some cr0 =>
            rw [crossingIdsOf_cons_some ccr rest cr0 hc] at hnodup
            exact (List.nodup_cons.mp hnodup).2
      exact ih _ cellIdx cr h hnodup'

theorem failureWeightUpdates_lookup (sc : SlotConfig) (b : List Int) (i : Int)
    (cellIdx : Nat) (cr : Crossing)
    (hcell : sc.crossings.get? cellIdx = some (some cr))
    (hnodup : (crossingIdsOf sc.crossings.enum).Nodup) :
    jsMapGet (failureWeightUpdates sc b i) cr.crossingId =
      some (jsDiv ((b.getD cellIdx 0 : Int) : Rat) ((i : Int) : Rat)) := by
  unfold failureWeightUpdates
  apply fwuStep_fold_lookup b i sc.crossings.enum [] cellIdx cr _ hnodup
  rw [List.mk_mem_enum_iff_getElem?, ← List.get?_eq_getElem?]
  exact hcell

theorem listSet_get?_self {α : Type} (l : List α) (i : Nat) (v : α) (h : i < l.length) :
    (listSet l i v).get? i = some v := by
  unfold listSet
  rw [List.get?_eq_getElem?]
  rw [List.getElem?_set_self (by simpa using h)]

theorem listSet_get?_ne {α : Type} (l : List α) (i j : Nat) (v : α) (h : j ≠ i) :
    (listSet l i v).get? j = l.get? j := by
  unfold listSet
  rw [List.get?_eq_getElem?, List.get?_eq_getElem?]
  exact List.getElem?_set_ne (Ne.symm h)

theorem get?_some_lt {α : Type} {l : List α} {i : Nat} {a : α}
    (h : l.get? i = some a) : i < l.length := by
  rw [List.get?_eq_getElem?] at h
  exact (List.getElem?_eq_some.mp h).1

/-- A wipeout inside `eliminateWord`: a slot at option count 1 losing a word
fails immediately with the weight-updates map built from its crossings, the
(blame-updated) blame counters, and its initial option count. -/
theorem eliminateWord_wipeout (ctx : ACContext) (st : ACState) (slotId wordId : Nat)
    (blamedCellIdx : Option Nat) (sc : SlotConfig) (ps : PropSlot)
    (hsc : ctx.config.slotConfigs.get? slotId = some sc)
    (hps : st.propSlots.get? slotId = some ps)
    (hcount : ps.optionCount = 1) :
    (eliminateWord ctx st slotId wordId blamedCellIdx).2 =
      some ⟨failureWeightUpdates sc
        (match blamedCellIdx with
         | some c => listModify ps.blameCounts c (· + 1)
         | none => ps.blameCounts)
        (ctx.initialOptionCounts.getD slotId 0)⟩ := by
  unfold eliminateWord
  rw [hsc, hps]
  dsimp only
  rw [hcount]
  cases blamedCellIdx with
  | none =>
      rw [if_pos (by norm_num)]
  | some c =>
      rw [if_pos (by norm_num)]

/-- The only failure `seedOneSlot` can produce carries an empty
weight-updates map. -/
theorem seedOneSlot_failure (ctx : ACContext) (st : ACState) (slotId : Nat)
    (st' : ACState) (e : ACFailure)
    (h : seedOneSlot ctx st slotId = (st', some e)) : e = ⟨[]⟩ := by
  unfold seedOneSlot at h
  cases hps : st.propSlots.get? slotId with
  | none => rw [hps] at h; dsimp only at h; cases (Prod.mk.injEq _ _ _ _ ▸ h).2
  | some ps =>
      cases hsc : ctx.config.slotConfigs.get? slotId with
      | none => rw [hps, hsc] at h; dsimp only at h; cases (Prod.mk.injEq _ _ _ _ ▸ h).2
      | some sc =>
          rw [hps, hsc] at h
          dsimp only at h
          by_cases hz : ps.optionCount = 0
          · rw [if_pos hz] at h
            have := (Prod.mk.injEq _ _ _ _ ▸ h).2
            exact (Option.some.injEq _ _ ▸ this).symm
          · rw [if_neg hz] at h
            cases (Prod.mk.injEq _ _ _ _ ▸ h).2

/-- Successful seeding of one slot does not change any option count. -/
theorem seedOneSlot_preserves (ctx : ACContext) (st : ACState) (slotId : Nat)
    (st' : ACState) (h : seedOneSlot ctx st slotId = (st', none)) (j : Nat) :
    (st'.propSlots.get? j).map PropSlot.optionCount =
      (st.propSlots.get? j).map PropSlot.optionCount := by
  unfold seedOneSlot at h
  cases hps : st.propSlots.get? slotId with
  | none =>
      rw [hps] at h
      dsimp only at h
      obtain rfl : st = st' := congrArg Prod.fst h
      rfl
  | some ps =>
      cases hsc : ctx.config.slotConfigs.get? slotId with
      | none =>
          rw [hps, hsc] at h
          dsimp only at h
          obtain rfl : st = st' := congrArg Prod.fst h
          rfl
      | some sc =>
          rw [hps, hsc] at h
          dsimp only at h
          by_cases hz : ps.optionCount = 0
          · rw [if_pos hz] at h
            cases (Prod.mk.injEq _ _ _ _ ▸ h).2
          · rw [if_neg hz] at h
            have hst := congrArg Prod.fst h
            dsimp only at hst
            rw [← hst]
            dsimp only
            by_cases hj : j = slotId
            · subst hj
              rw [listSet_get?_self _ _ _ (get?_some_lt hps), hps]
              by_cases h1 : ps.optionCount = 1
              · rw [if_pos h1]; rfl
              · rw [if_neg h1]; rfl
            · rw [listSet_get?_ne _ _ _ _ hj]

theorem seedOneSlot_zero_fails (ctx : ACContext) (st : ACState) (slotId : Nat)
    (ps : PropSlot) (hps : st.propSlots.get? slotId = some ps)
    (hsc : (ctx.config.slotConfigs.get? slotId).isSome)
    (hz : ps.optionCount = 0) :
    seedOneSlot ctx st slotId = (st, some ⟨[]⟩) := by
  obtain ⟨sc, hsc⟩ := Option.isSome_iff_exists.mp hsc
  unfold seedOneSlot
  rw [hps, hsc]
  dsimp only
  rw [if_pos hz]

theorem seed_fold_zero (ctx : ACContext) :
    ∀ (ids : List Nat) (st : ACState) (j : Nat), j ∈ ids →
      (st.propSlots.get? j).map PropSlot.optionCount = some 0 →
      (ctx.config.slotConfigs.get? j).isSome →
      (foldE (seedOneSlot ctx) st ids).2 = some ⟨[]⟩ := by
  intro ids
  induction ids with
  | nil => intro st j hj _ _; cases hj
  | cons a rest ih =>
      intro st j hj hcount hsc
      cases hstep : seedOneSlot ctx st a with
      | mk st' r =>
          cases r with
          | none =>
              have hfold : foldE (seedOneSlot ctx) st (a :: rest) =
                  foldE (seedOneSlot ctx) st' rest := by
                conv_lhs => rw [foldE]
                rw [hstep]
              rw [hfold]
              rcases List.mem_cons.mp hj with rfl | hj'
              · exfalso
                obtain ⟨ps, hps, hz⟩ := Option.map_eq_some'.mp hcount
                have hfail := seedOneSlot_zero_fails ctx st j ps hps hsc hz
                rw [hstep] at hfail
                cases (Prod.mk.injEq _ _ _ _ ▸ hfail).2
              · refine ih st' j hj' ?_ hsc
                rw [seedOneSlot_preserves ctx st a st' hstep j]
                exact hcount
          | some e =>
              have hfold : foldE (seedOneSlot ctx) st (a :: rest) = (st', some e) := by
                conv_lhs => rw [foldE]
                rw [hstep]
              rw [hfold]
              rw [seedOneSlot_failure ctx st a st' e hstep]

theorem establish_seed_zero (ctx : ACContext) (slots : List Slot)
    (ev : Option Nat) (fuel : Nat) (j : Nat)
    (hj : j ∈ seedIds ctx ev)
    (hcount : (((initPropSlots ctx).get? j).map PropSlot.optionCount) = some 0)
    (hsc : (ctx.config.slotConfigs.get? j).isSome) :
    (establishArcConsistency ctx slots ev fuel).2 = some ⟨[]⟩ := by
  have h := seed_fold_zero ctx (seedIds ctx ev)
      { slots := slots, propSlots := initPropSlots ctx } j hj hcount hsc
  unfold establishArcConsistency seedSlots
  dsimp only
  cases hfold : foldE (seedOneSlot ctx)
      { slots := slots, propSlots := initPropSlots ctx } (seedIds ctx ev) with
  | mk st1 r =>
      rw [hfold] at h
      dsimp only at h
      rw [h]

theorem acLoop_fail_step (ctx : ACContext) (fuel : Nat) (st st' : ACState)
    (qs : Nat) (f : ACFailure)
    (hpick : pickQueuedSlot ctx st = some qs)
    (hproc : processQueuedSlot ctx st qs = (st', some f)) :
    acLoop ctx (fuel + 1) st = (st', some f) := by
  unfold acLoop
  rw [hpick]
  dsimp only
  rw [hproc]

/-- C6: a seeded slot whose option count starts at 0 fails
`establishArcConsistency` immediately with an empty weight-updates map; a
slot wiped to 0 options during propagation fails the call at once, and the
failure's weight-updates map assigns, to the crossing at each of the slot's
cells that has one, the value `blameCounts[cellIdx] / initialOptionCount`
(blame counters taken after the blamed-cell increment); and a failing
`processQueuedSlot` short-circuits the propagation loop. -/
theorem arcConsistency_zero_count_failure :
    (∀ (ctx : ACContext) (slots : List Slot) (ev : Option Nat) (fuel : Nat)
       (j : Nat), j ∈ seedIds ctx ev →
       (((initPropSlots ctx).get? j).map PropSlot.optionCount) = some 0 →
       (ctx.config.slotConfigs.get? j).isSome →
       (establishArcConsistency ctx slots ev fuel).2 = some ⟨[]⟩) ∧
    (∀ (ctx : ACContext) (st : ACState) (slotId wordId : Nat)
       (blamedCellIdx : Option Nat) (sc : SlotConfig) (ps : PropSlot)
       (cellIdx : Nat) (cr : Crossing) (bc : List Int),
       ctx.config.slotConfigs.get? slotId = some sc →
       st.propSlots.get? slotId = some ps →
       ps.optionCount = 1 →
       bc = (match blamedCellIdx with
             | some c => listModify ps.blameCounts c (· + 1)
             | none => ps.blameCounts) →
       sc.crossings.get? cellIdx = some (some cr) →
       (crossingIdsOf sc.crossings.enum).Nodup →
       ctx.initialOptionCounts.getD slotId 0 ≠ 0 →
       (eliminateWord ctx st slotId wordId blamedCellIdx).2 =
           some ⟨failureWeightUpdates sc bc
             (ctx.initialOptionCounts.getD slotId 0)⟩ ∧
         jsMapGet (failureWeightUpdates sc bc
             (ctx.initialOptionCounts.getD slotId 0)) cr.crossingId =
           some (((bc.getD cellIdx 0 : Int) : Rat) /
             ((ctx.initialOptionCounts.getD slotId 0 : Int) : Rat))) ∧
    (∀ (ctx : ACContext) (fuel : Nat) (st st' : ACState) (qs : Nat)
       (f : ACFailure),
       pickQueuedSlot ctx st = some qs →
       processQueuedSlot ctx st qs = (st', some f) →
       acLoop ctx (fuel + 1) st = (st', some f)) := by
  refine ⟨?_, ?_, ?_⟩
  · intro ctx slots ev fuel j hj hcount hsc
    exact establish_seed_zero ctx slots ev fuel j hj hcount hsc
  · intro ctx st slotId wordId blamedCellIdx sc ps cellIdx cr bc hsc hps hcount hbc hcell hnodup hinit
    subst hbc
    refine ⟨eliminateWord_wipeout ctx st slotId wordId blamedCellIdx sc ps hsc hps hcount, ?_⟩
    rw [failureWeightUpdates_lookup sc _ _ cellIdx cr hcell hnodup]
    rw [jsDiv_eq_div _ _ (Int.cast_ne_zero.mpr hinit)]
  · intro ctx fuel st st' qs f hpick hproc
    exact acLoop_fail_step ctx fuel st st' qs f hpick hproc

/-- The three parts of the wipeout-failure theorem at concrete inputs:
`ctxZero` (slot 0 starts at count 0), the `stB` scenario (slot 1 at count 1
losing word 2 with blamed cell 0), and the seeded singleton scenario `stW`
whose first `processQueuedSlot` call fails. -/
theorem arcConsistency_zero_count_failure_witness :
    ((establishArcConsistency ctxZero (initSlots cfgWipe) none 5).2 =
        some ⟨[]⟩) ∧
    ((eliminateWord ctxSingleton stB 1 2 (some 0)).2 =
        some ⟨failureWeightUpdates scB [1, 1]
          (ctxSingleton.initialOptionCounts.getD 1 0)⟩ ∧
      jsMapGet (failureWeightUpdates scB [1, 1]
          (ctxSingleton.initialOptionCounts.getD 1 0))
          (Crossing.crossingId ⟨0, 0, 0⟩) =
        some (((([1, 1] : List Int).getD 0 0 : Int) : Rat) /
          ((ctxSingleton.initialOptionCounts.getD 1 0 : Int) : Rat))) ∧
    (acLoop ctxSingleton 3 stW =
      ((processQueuedSlot ctxSingleton stW 0).1,
        some ((processQueuedSlot ctxSingleton stW 0).2.getD ⟨[]⟩))) := by
  refine ⟨?_, ?_, ?_⟩
  · exact arcConsistency_zero_count_failure.1 ctxZero (initSlots cfgWipe)
      none 5 0 (by decide) rfl rfl
  · exact arcConsistency_zero_count_failure.2.1 ctxSingleton stB 1 2 (some 0)
      scB psB 0 ⟨0, 0, 0⟩ [1, 1] rfl rfl rfl rfl rfl (by decide) (by decide)
  · exact arcConsistency_zero_count_failure.2.2 ctxSingleton 2 stW
      (processQueuedSlot ctxSingleton stW 0).1 0
      ((processQueuedSlot ctxSingleton stW 0).2.getD ⟨[]⟩) rfl rfl

end Ingrid
